import Mathlib

/-!
# Verification of the `go-nagios` performance-data parser (`perfdata.go`)

A shallow embedding of the performance-data parsing, validation and
serialization code of the `nagios` Go package. Strings are embedded as
`List Char`; every Go helper function from `perfdata.go` is translated to a
Lean function of the same name (up to capitalization restrictions). Errors
are embedded as an inductive type with one constructor per error-creation
site in the source; every such site wraps the `ErrInvalidPerformanceDataFormat`
sentinel with `%w`, which is recorded by
`wrapsErrInvalidPerformanceDataFormat`.
-/

namespace GoNagios

/-- Convenience: the character list of a string literal. -/
def str (s : String) : List Char := s.data

instance instDecEqExcept {ε α : Type} [DecidableEq ε] [DecidableEq α] :
    DecidableEq (Except ε α) := fun
  | .error a, .error b =>
    if h : a = b then .isTrue (by rw [h]) else .isFalse (by simp [h])
  | .error _, .ok _ => .isFalse (by simp)
  | .ok _, .error _ => .isFalse (by simp)
  | .ok a, .ok b =>
    if h : a = b then .isTrue (by rw [h]) else .isFalse (by simp [h])

/-! ## Character classes

The Go code matches characters via regular-expression character classes and
`strings.ContainsAny` cut-sets. Each class is embedded as an explicit boolean
predicate enumerating exactly the characters of the class. -/

/-- Whitespace as decided by Go's `unicode.IsSpace` (used by
`strings.TrimSpace` and `strings.Fields`): the Unicode `White_Space`
code points. -/
def isSpace (c : Char) : Bool :=
  c == '\u0020' || c == '\u0009' || c == '\u000a' || c == '\u000b' ||
  c == '\u000c' || c == '\u000d' || c == '\u0085' || c == '\u00a0' ||
  c == '\u1680' || c == '\u2000' || c == '\u2001' || c == '\u2002' ||
  c == '\u2003' || c == '\u2004' || c == '\u2005' || c == '\u2006' ||
  c == '\u2007' || c == '\u2008' || c == '\u2009' || c == '\u200a' ||
  c == '\u2028' || c == '\u2029' || c == '\u202f' || c == '\u205f' ||
  c == '\u3000'

/-- The decimal digits `0-9` (regex `\d` / the digit part of the classes). -/
def isDigitChar (c : Char) : Bool :=
  c == '0' || c == '1' || c == '2' || c == '3' || c == '4' ||
  c == '5' || c == '6' || c == '7' || c == '8' || c == '9'

/-- The regex character class `[-0-9.]` used for the Value, Min and Max
fields (`perfDataValueFieldRegex` / `perfDataMinMaxFieldsRegex`). -/
def isValueChar (c : Char) : Bool :=
  c == '-' || c == '.' || isDigitChar c

/-- The regex character class `[0-9~@:]` used for the Warn and Crit fields
(`perfDataThresholdRangeSyntaxRegex`). -/
def isThresholdChar (c : Char) : Bool :=
  isDigitChar c || c == '~' || c == '@' || c == ':'

/-- The cut-set `perfDataUoMFieldDisallowedCharacters = "0123456789;'\""`:
characters disallowed in the UnitOfMeasurement field.  This is also the
negation of the regex class `[^\d;'"]` of the UoM capture group. -/
def isUoMDisallowedChar (c : Char) : Bool :=
  isDigitChar c || c == ';' || c == '\'' || c == '"'

/-- The cut-set `perfDataLabelFieldDisallowedCharacters = "='"`:
characters disallowed in the Label field. -/
def isLabelDisallowedChar (c : Char) : Bool :=
  c == '=' || c == '\''

/-! ## Go string primitives

`strings.TrimSpace`, `strings.Trim`, `strings.Fields`, `strings.Split` and
`strings.SplitN(_, _, 2)` over `List Char`. -/

/-- Drop the longest suffix of characters satisfying `p`
(the right half of Go's `strings.Trim`). -/
def dropWhileEnd (p : Char → Bool) (l : List Char) : List Char :=
  (l.reverse.dropWhile p).reverse

/-- Go's `strings.Trim` with the cut-set given as a predicate: remove all
leading and trailing characters satisfying `p`. -/
def trimWhen (p : Char → Bool) (l : List Char) : List Char :=
  dropWhileEnd p (l.dropWhile p)

/-- Go's `strings.TrimSpace`. -/
def trimSpace (l : List Char) : List Char :=
  trimWhen isSpace l

/-- Split at every character satisfying `p`, keeping empty pieces.
`splitWhen (· == sep)` is Go's `strings.Split` with a one-character
separator: it always returns at least one piece, and `n` separator
occurrences yield `n+1` pieces. -/
def splitWhen (p : Char → Bool) : List Char → List (List Char)
  | [] => [[]]
  | c :: cs =>
    let r := splitWhen p cs
    if p c then [] :: r
    else
      match r with
      | [] => [[c]]
      | x :: xs => (c :: x) :: xs

/-- Go's `strings.Split(s, ";")`. -/
def splitOnSemicolon (l : List Char) : List (List Char) :=
  splitWhen (fun c => c == ';') l

/-- Go's `strings.Fields`: split on runs of whitespace, dropping empty
pieces. -/
def fieldsOf (l : List Char) : List (List Char) :=
  (splitWhen isSpace l).filter (fun x => !x.isEmpty)

/-- Go's `strings.SplitN(input, "=", 2)`, restricted to the two outcomes the
source distinguishes: `none` when the input contains no `'='` (Go returns a
one-element slice) and `some (before, after)` for the split at the first
`'='` (Go returns a two-element slice). -/
def splitN2OnEq : List Char → Option (List Char × List Char)
  | [] => none
  | c :: cs =>
    if c == '=' then some ([], cs)
    else
      match splitN2OnEq cs with
      | none => none
      | some (l, r) => some (c :: l, r)

/-! ## Errors

One constructor per error-creation site in `perfdata.go`. -/

/-- The distinct error-creation sites of `perfdata.go`. Each corresponds to
one `fmt.Errorf(..., ErrInvalidPerformanceDataFormat)` (possibly reached
through further `%w` context wrapping by the callers). -/
inductive PerfErr where
  /-- `ParsePerfData`: "missing input performance data string". -/
  | missingInput
  /-- `parsePerfData`: fewer than 1 semicolon-separated field. -/
  | tooFewFields
  /-- `parsePerfData`: more than 5 semicolon-separated fields. -/
  | tooManyFields
  /-- `extractLabelAndRawValue`: "empty input provided". -/
  | extractLabelEmptyInput
  /-- `extractLabelAndRawValue`: "failed to obtain metric label and raw value". -/
  | missingEqualsSign
  /-- `validatePerfDataLabelField`: "field Label fails validation". -/
  | labelInvalid
  /-- `extractLabelAndRawValue`: "metric value is not present". -/
  | missingValueField
  /-- `extractValueAndUoM`: "empty input provided". -/
  | extractValueEmptyInput
  /-- `extractValueAndUoM`: "failed to extract Value and UoM fields" (the
  capture-group regex found no match). -/
  | valueUoMPatternNoMatch
  /-- `validatePerfDataValueField`: "field Value fails validation". -/
  | valueInvalid
  /-- `validatePerfDataUoMField`: "field UnitOfMeasurement fails validation". -/
  | uomInvalid
  /-- `validatePerfDataWarnField`: "field Warn fails validation". -/
  | warnInvalid
  /-- `validatePerfDataCritField`: "field Crit fails validation". -/
  | critInvalid
  /-- `validatePerfDataMinField`: "field Min fails validation". -/
  | minInvalid
  /-- `validatePerfDataMaxField`: "field Max fails validation". -/
  | maxInvalid
deriving DecidableEq, Repr

/-- Whether the error unwraps (via the `%w` chains of `perfdata.go`) to the
sentinel `ErrInvalidPerformanceDataFormat`. Every error-creation site of the
file wraps the sentinel, directly or through its caller's context wrapping,
so every constructor is mapped to `true`; the per-constructor match keeps the
correspondence with the individual `fmt.Errorf` sites auditable. -/
def wrapsErrInvalidPerformanceDataFormat : PerfErr → Bool
  | .missingInput => true
  | .tooFewFields => true
  | .tooManyFields => true
  | .extractLabelEmptyInput => true
  | .missingEqualsSign => true
  | .labelInvalid => true
  | .missingValueField => true
  | .extractValueEmptyInput => true
  | .valueUoMPatternNoMatch => true
  | .valueInvalid => true
  | .uomInvalid => true
  | .warnInvalid => true
  | .critInvalid => true
  | .minInvalid => true
  | .maxInvalid => true

/-- The record-level sentinel errors used by `PerformanceData.Validate`
(`ErrPerformanceDataMissingLabel`, `ErrPerformanceDataMissingValue`). -/
inductive ValidationErr where
  | missingLabel
  | missingValue
deriving DecidableEq, Repr

/-! ## Data model -/

/-- The `PerformanceData` struct: one parsed metric, all fields stored as
text. -/
structure PerformanceData where
  Label : List Char
  Value : List Char
  UnitOfMeasurement : List Char
  Warn : List Char
  Crit : List Char
  Min : List Char
  Max : List Char
deriving DecidableEq, Repr

/-! ## Field validators -/

/-- `validatePerfDataLabelField`: trim whitespace; succeed iff the result is
non-empty and contains no character of the cut-set `"='"`. -/
def validatePerfDataLabelField (input : List Char) : Except PerfErr Unit :=
  let input := trimSpace input
  if !input.isEmpty && !input.any isLabelDisallowedChar then .ok ()
  else .error .labelInvalid

/-- `validatePerfDataValueField`: trim whitespace; succeed iff the regex
`[-0-9.]+|U` matches somewhere in the string (`MatchString` is a search, not
an anchored match): some character of `[-0-9.]` occurs, or `U` occurs. -/
def validatePerfDataValueField (input : List Char) : Except PerfErr Unit :=
  let input := trimSpace input
  if input.any isValueChar || input.any (fun c => c == 'U') then .ok ()
  else .error .valueInvalid

/-- `validatePerfDataUoMField`: trim whitespace; the empty string succeeds;
otherwise succeed iff no character of the cut-set `"0123456789;'\""` occurs. -/
def validatePerfDataUoMField (input : List Char) : Except PerfErr Unit :=
  let input := trimSpace input
  if input.isEmpty then .ok ()
  else if !input.any isUoMDisallowedChar then .ok ()
  else .error .uomInvalid

/-- `validatePerfDataWarnField`: trim whitespace; the empty string succeeds;
otherwise succeed iff the regex `[0-9~@:]+` matches somewhere in the string. -/
def validatePerfDataWarnField (input : List Char) : Except PerfErr Unit :=
  let input := trimSpace input
  if input.isEmpty then .ok ()
  else if input.any isThresholdChar then .ok ()
  else .error .warnInvalid

/-- `validatePerfDataCritField`: identical logic to the Warn validator, at an
independent call site. -/
def validatePerfDataCritField (input : List Char) : Except PerfErr Unit :=
  let input := trimSpace input
  if input.isEmpty then .ok ()
  else if input.any isThresholdChar then .ok ()
  else .error .critInvalid

/-- `validatePerfDataMinField`: trim whitespace; the empty string succeeds;
otherwise succeed iff the regex `[-0-9.]+` matches somewhere in the string. -/
def validatePerfDataMinField (input : List Char) : Except PerfErr Unit :=
  let input := trimSpace input
  if input.isEmpty then .ok ()
  else if input.any isValueChar then .ok ()
  else .error .minInvalid

/-- `validatePerfDataMaxField`: identical logic to the Min validator, at an
independent call site. -/
def validatePerfDataMaxField (input : List Char) : Except PerfErr Unit :=
  let input := trimSpace input
  if input.isEmpty then .ok ()
  else if input.any isValueChar then .ok ()
  else .error .maxInvalid

/-! ## Per-field parse helpers -/

/-- `parsePerfDataWarnField`: trim, validate, return the trimmed input. -/
def parsePerfDataWarnField (input : List Char) : Except PerfErr (List Char) :=
  let input := trimSpace input
  match validatePerfDataWarnField input with
  | .error e => .error e
  | .ok _ => .ok input

/-- `parsePerfDataCritField`: trim, validate, return the trimmed input. -/
def parsePerfDataCritField (input : List Char) : Except PerfErr (List Char) :=
  let input := trimSpace input
  match validatePerfDataCritField input with
  | .error e => .error e
  | .ok _ => .ok input

/-- `parsePerfDataMinField`: trim, validate, return the trimmed input. -/
def parsePerfDataMinField (input : List Char) : Except PerfErr (List Char) :=
  let input := trimSpace input
  match validatePerfDataMinField input with
  | .error e => .error e
  | .ok _ => .ok input

/-- `parsePerfDataMaxField`: trim, validate, return the trimmed input. -/
def parsePerfDataMaxField (input : List Char) : Except PerfErr (List Char) :=
  let input := trimSpace input
  match validatePerfDataMaxField input with
  | .error e => .error e
  | .ok _ => .ok input

/-! ## Tokenizer and Value/UoM splitter -/

/-- `extractLabelAndRawValue`: split field 0 of a metric at the first `'='`
into label half and raw-value half; strip single quotes and whitespace from
the label half; validate the label; require a non-empty (after whitespace
trimming) raw-value half. -/
def extractLabelAndRawValue (input : List Char) :
    Except PerfErr (List Char × List Char) :=
  if input.isEmpty then .error .extractLabelEmptyInput
  else
    match splitN2OnEq input with
    | none => .error .missingEqualsSign
    | some (rawLabel, rawValueAndUoM) =>
      let label := trimSpace (trimWhen (fun c => c == '\'') rawLabel)
      match validatePerfDataLabelField label with
      | .error e => .error e
      | .ok _ =>
        let rawValue := trimSpace rawValueAndUoM
        if rawValue.isEmpty then .error .missingValueField
        else .ok (label, rawValue)

/-- The behaviour of Go's
`regexp.MustCompile(`(?P<Value>[-0-9.]+)(?P<UoM>[^\d;'"]*)?`).FindStringSubmatch`:
leftmost match; the greedy required group `Value` captures the maximal run of
`[-0-9.]` characters starting at the leftmost position where one occurs; the
greedy optional group `UoM` captures the maximal following run of characters
outside `\d;'"` (it participates, possibly capturing the empty string). Text
after the match is ignored; `none` iff no `[-0-9.]` character occurs. -/
def findValueUoMMatch : List Char → Option (List Char × List Char)
  | [] => none
  | c :: cs =>
    if isValueChar c then
      some (c :: cs.takeWhile isValueChar,
        (cs.dropWhile isValueChar).takeWhile (fun d => !isUoMDisallowedChar d))
    else findValueUoMMatch cs

/-- `extractValueAndUoM`: reject empty input; short-circuit the literal `U`;
otherwise apply the Value/UoM capture regex and re-validate both captures.
(The `SubexpIndex` lookups of the source always succeed for the fixed
pattern and are omitted.) -/
def extractValueAndUoM (input : List Char) :
    Except PerfErr (List Char × List Char) :=
  if input.isEmpty then .error .extractValueEmptyInput
  else if input = ['U'] then .ok (input, [])
  else
    match findValueUoMMatch input with
    | none => .error .valueUoMPatternNoMatch
    | some (value, uom) =>
      match validatePerfDataValueField value with
      | .error e => .error e
      | .ok _ =>
        match validatePerfDataUoMField uom with
        | .error e => .error e
        | .ok _ => .ok (value, uom)

/-- `extractRawWarnCritMinMaxRawFieldVals`: positional fields 1..4 of the
semicolon split, each replaced by the empty string when absent. -/
def extractRawWarnCritMinMaxRawFieldVals (perfdataFields : List (List Char)) :
    List Char × List Char × List Char × List Char :=
  let warn := if 2 ≤ perfdataFields.length then perfdataFields.getD 1 [] else []
  let crit := if 3 ≤ perfdataFields.length then perfdataFields.getD 2 [] else []
  let min := if 4 ≤ perfdataFields.length then perfdataFields.getD 3 [] else []
  let max := if 5 ≤ perfdataFields.length then perfdataFields.getD 4 [] else []
  (warn, crit, min, max)

/-! ## Metric assembler and batch parser -/

/-- `perfDataMinSemicolonSeparatedFields`. -/
def perfDataMinSemicolonSeparatedFields : Nat := 1

/-- `perfDataMaxSemicolonSeparatedFields`. -/
def perfDataMaxSemicolonSeparatedFields : Nat := 5

/-- `parsePerfData` (unexported): parse one whitespace-free metric substring
into a `PerformanceData` record. -/
def parsePerfData (perfdataString : List Char) : Except PerfErr PerformanceData :=
  let perfdataFields := splitOnSemicolon perfdataString
  if perfdataFields.length < perfDataMinSemicolonSeparatedFields then
    .error .tooFewFields
  else if perfDataMaxSemicolonSeparatedFields < perfdataFields.length then
    .error .tooManyFields
  else
    match extractLabelAndRawValue (perfdataFields.headD []) with
    | .error e => .error e
    | .ok (label, rawValue) =>
      match extractValueAndUoM rawValue with
      | .error e => .error e
      | .ok (value, uom) =>
        match extractRawWarnCritMinMaxRawFieldVals perfdataFields with
        | (rawWarn, rawCrit, rawMin, rawMax) =>
          match parsePerfDataWarnField rawWarn with
          | .error e => .error e
          | .ok warn =>
            match parsePerfDataCritField rawCrit with
            | .error e => .error e
            | .ok crit =>
              match parsePerfDataMinField rawMin with
              | .error e => .error e
              | .ok min =>
                match parsePerfDataMaxField rawMax with
                | .error e => .error e
                | .ok max =>
                  .ok { Label := label, Value := value,
                        UnitOfMeasurement := uom, Warn := warn,
                        Crit := crit, Min := min, Max := max }

/-- Go's result-collecting loop over the metric substrings: append each
parsed record in order, aborting with the first error. -/
def exceptMapList (f : α → Except ε β) : List α → Except ε (List β)
  | [] => .ok []
  | a :: as =>
    match f a with
    | .error e => .error e
    | .ok b =>
      match exceptMapList f as with
      | .error e => .error e
      | .ok bs => .ok (b :: bs)

/-- `ParsePerfData` (exported): reject blank input, strip surrounding double
quotes, split into whitespace-separated metric substrings, and parse each in
order. -/
def ParsePerfData (rawPerfdata : List Char) :
    Except PerfErr (List PerformanceData) :=
  if trimSpace rawPerfdata = [] then .error .missingInput
  else
    let rawPerfdata := trimWhen (fun c => c == '"') rawPerfdata
    exceptMapList parsePerfData (fieldsOf rawPerfdata)

/-! ## Record validation and serialization -/

/-- `PerformanceData.Validate`: minimal whole-record check, requiring a
non-empty Label and a non-empty Value. -/
def PerformanceData.Validate (pd : PerformanceData) : Except ValidationErr Unit :=
  if pd.Label = [] then .error .missingLabel
  else if pd.Value = [] then .error .missingValue
  else .ok ()

/-- Go's `fmt.Sprintf` restricted to the `%s` verb: substitute the arguments
for the `%s` occurrences of the template, in order. (The source's template
uses only `%s`; missing-argument padding never occurs there.) -/
def applyFormat : List Char → List (List Char) → List Char
  | '%' :: 's' :: rest, arg :: args => arg ++ applyFormat rest args
  | '%' :: 's' :: rest, [] => applyFormat rest []
  | c :: rest, args => c :: applyFormat rest args
  | [], _ => []

/-- `PerformanceData.String`: render one record via
`fmt.Sprintf(" '%s'=%s%s;%s;%s;%s;%s", Label, Value, UnitOfMeasurement,
Warn, Crit, Min, Max)`. (Named `string` because `String` is the Lean string
type.) -/
def PerformanceData.string (pd : PerformanceData) : List Char :=
  applyFormat (str " '%s'=%s%s;%s;%s;%s;%s")
    [pd.Label, pd.Value, pd.UnitOfMeasurement, pd.Warn, pd.Crit, pd.Min, pd.Max]

/-- The structural invariants of every record produced by a successful
parse: they record which characters can occur in each field of such a record
and which validations it passed. -/
structure ParsedRecordFacts (pd : PerformanceData) : Prop where
  label_ne : pd.Label ≠ []
  label_chars : ∀ c ∈ pd.Label,
    isSpace c = false ∧ c ≠ ';' ∧ c ≠ '=' ∧ c ≠ '\''
  value_shape : (pd.Value = ['U'] ∧ pd.UnitOfMeasurement = []) ∨
    (pd.Value ≠ [] ∧ (∀ c ∈ pd.Value, isValueChar c = true) ∧
      ∀ w ws, pd.UnitOfMeasurement = w :: ws → isValueChar w = false)
  uom_chars : ∀ c ∈ pd.UnitOfMeasurement,
    isUoMDisallowedChar c = false ∧ isSpace c = false
  warn_ok : pd.Warn = [] ∨ ∃ c ∈ pd.Warn, isThresholdChar c = true
  warn_chars : ∀ c ∈ pd.Warn, isSpace c = false ∧ c ≠ ';'
  crit_ok : pd.Crit = [] ∨ ∃ c ∈ pd.Crit, isThresholdChar c = true
  crit_chars : ∀ c ∈ pd.Crit, isSpace c = false ∧ c ≠ ';'
  min_ok : pd.Min = [] ∨ ∃ c ∈ pd.Min, isValueChar c = true
  min_chars : ∀ c ∈ pd.Min, isSpace c = false ∧ c ≠ ';'
  max_ok : pd.Max = [] ∨ ∃ c ∈ pd.Max, isValueChar c = true
  max_chars : ∀ c ∈ pd.Max, isSpace c = false ∧ c ≠ ';'

/-- Modelled from the spec: conformance of a record's fields to the grammar
character classes of the spec's data model (section 3) and input grammar
(section 6) — i.e. what it means for the metric string the record was parsed
from to be well-formed. Label: non-empty, excludes `=` and `'`; Value: the
literal `U` or a non-empty string over `[-0-9.]` (with no UoM in the `U`
case, per `value-uom := "U" | number uom?`); UoM: excludes digits, `;`, `'`,
`"`; Warn/Crit: strings over `[0-9~@:]`; Min/Max: strings over `[-0-9.]`. -/
def specGrammarConformant (pd : PerformanceData) : Bool :=
  (!pd.Label.isEmpty) && (!pd.Label.any isLabelDisallowedChar) &&
  ((pd.Value == ['U']) || (!pd.Value.isEmpty && pd.Value.all isValueChar)) &&
  (!(pd.Value == ['U']) || pd.UnitOfMeasurement.isEmpty) &&
  (!pd.UnitOfMeasurement.any isUoMDisallowedChar) &&
  pd.Warn.all isThresholdChar && pd.Crit.all isThresholdChar &&
  pd.Min.all isValueChar && pd.Max.all isValueChar

/-! ## Helper lemmas: trimming -/

lemma dropWhileEnd_eq_rdropWhile (p : Char → Bool) (l : List Char) :
    dropWhileEnd p l = l.rdropWhile p := rfl

lemma dropWhile_eq_self_of_all {p : Char → Bool} {l : List Char}
    (h : ∀ c ∈ l, p c = false) : l.dropWhile p = l := by
  cases l with
  | nil => rfl
  | cons a as => rw [List.dropWhile_cons, h a (List.mem_cons_self a as)]; simp

lemma dropWhileEnd_eq_self_of_all {p : Char → Bool} {l : List Char}
    (h : ∀ c ∈ l, p c = false) : dropWhileEnd p l = l := by
  unfold dropWhileEnd
  rw [dropWhile_eq_self_of_all (fun c hc => h c (List.mem_reverse.1 hc)),
    List.reverse_reverse]

lemma trimWhen_eq_self_of_all {p : Char → Bool} {l : List Char}
    (h : ∀ c ∈ l, p c = false) : trimWhen p l = l := by
  unfold trimWhen
  rw [dropWhile_eq_self_of_all h, dropWhileEnd_eq_self_of_all h]

lemma trimSpace_eq_self_of_all {l : List Char}
    (h : ∀ c ∈ l, isSpace c = false) : trimSpace l = l :=
  trimWhen_eq_self_of_all h

lemma mem_of_mem_trimWhen {p : Char → Bool} {l : List Char} {c : Char}
    (h : c ∈ trimWhen p l) : c ∈ l := by
  unfold trimWhen dropWhileEnd at h
  have h1 : c ∈ (l.dropWhile p).reverse.dropWhile p := List.mem_reverse.1 h
  have h2 : c ∈ (l.dropWhile p).reverse := (List.dropWhile_sublist p).mem h1
  exact (List.dropWhile_sublist p).mem (List.mem_reverse.1 h2)

lemma mem_dropWhile_of_neg {p : Char → Bool} {l : List Char} {x : Char}
    (h : x ∈ l) (hp : p x = false) : x ∈ l.dropWhile p := by
  induction l with
  | nil => cases h
  | cons a as ih =>
    rw [List.dropWhile_cons]
    rcases List.mem_cons.1 h with rfl | ha
    · rw [hp]; simp
    · split
      · exact ih ha
      · exact List.mem_cons_of_mem _ ha

lemma dropWhileEnd_ne_nil_of_mem {p : Char → Bool} {l : List Char} {x : Char}
    (h : x ∈ l) (hp : p x = false) : dropWhileEnd p l ≠ [] := by
  unfold dropWhileEnd
  intro hnil
  have h1 : l.reverse.dropWhile p = [] := by
    simpa [List.reverse_eq_nil_iff] using hnil
  have := List.dropWhile_eq_nil_iff.1 h1 x (List.mem_reverse.2 h)
  rw [hp] at this; exact Bool.false_ne_true this

lemma trimWhen_ne_nil_of_mem {p : Char → Bool} {l : List Char} {x : Char}
    (h : x ∈ l) (hp : p x = false) : trimWhen p l ≠ [] :=
  dropWhileEnd_ne_nil_of_mem (mem_dropWhile_of_neg h hp) hp

lemma trimWhen_cons_of_pos {p : Char → Bool} {a : Char} {l : List Char}
    (ha : p a = true) : trimWhen p (a :: l) = trimWhen p l := by
  unfold trimWhen
  rw [List.dropWhile_cons, ha]; simp

lemma trimSpace_idem (l : List Char) : trimSpace (trimSpace l) = trimSpace l := by
  unfold trimSpace trimWhen
  rw [dropWhileEnd_eq_rdropWhile, dropWhileEnd_eq_rdropWhile]
  rcases h : List.rdropWhile isSpace (l.dropWhile isSpace) with _ | ⟨a, as⟩
  · simp [List.rdropWhile_nil]
  · have hpre : (a :: as) <+: l.dropWhile isSpace := h ▸ List.rdropWhile_prefix _ _
    have hne : l.dropWhile isSpace ≠ [] := by
      intro hnil; rw [hnil] at hpre
      exact List.cons_ne_nil a as (List.prefix_nil.1 hpre)
    have hhead : isSpace a = false := by
      have := List.head_dropWhile_not isSpace l hne
      rwa [← hpre.head (List.cons_ne_nil a as), List.head_cons] at this
    rw [List.dropWhile_cons, hhead]
    simp only [Bool.false_eq_true, if_false]
    rw [← h, List.rdropWhile_idempotent]

lemma takeWhile_append_of_all {p : Char → Bool} {a b : List Char}
    (h : ∀ c ∈ a, p c = true) : (a ++ b).takeWhile p = a ++ b.takeWhile p := by
  induction a with
  | nil => simp
  | cons x xs ih =>
    rw [List.cons_append, List.takeWhile_cons, if_pos (h x (List.mem_cons_self x xs)),
      ih (fun c hc => h c (List.mem_cons_of_mem x hc)), List.cons_append]

lemma dropWhile_append_of_all {p : Char → Bool} {a b : List Char}
    (h : ∀ c ∈ a, p c = true) : (a ++ b).dropWhile p = b.dropWhile p := by
  induction a with
  | nil => simp
  | cons x xs ih =>
    rw [List.cons_append, List.dropWhile_cons, if_pos (h x (List.mem_cons_self x xs))]
    exact ih (fun c hc => h c (List.mem_cons_of_mem x hc))

lemma dropWhileEnd_concat_pos {p : Char → Bool} {l : List Char} {x : Char}
    (hx : p x = true) : dropWhileEnd p (l ++ [x]) = dropWhileEnd p l := by
  rw [dropWhileEnd_eq_rdropWhile, dropWhileEnd_eq_rdropWhile,
    List.rdropWhile_concat, if_pos hx]

lemma dropWhileEnd_concat_neg {p : Char → Bool} {l : List Char} {x : Char}
    (hx : p x = false) : dropWhileEnd p (l ++ [x]) = l ++ [x] := by
  rw [dropWhileEnd_eq_rdropWhile, List.rdropWhile_concat,
    if_neg (by simp [hx])]

lemma getLast_append_right {pre s : List Char} (hs : s ≠ [])
    (h : pre ++ s ≠ []) : (pre ++ s).getLast h = s.getLast hs := by
  rw [List.getLast_append]
  rw [dif_neg (by simpa using hs)]

lemma trimWhen_eq_self_of_ends {p : Char → Bool} {l : List Char} {a z : Char}
    {mid : List Char} (hl : l = a :: mid ++ [z])
    (ha : p a = false) (hz : p z = false) : trimWhen p l = l := by
  subst hl
  unfold trimWhen
  rw [show (a :: mid ++ [z] : List Char) = a :: (mid ++ [z]) by simp,
    List.dropWhile_cons, if_neg (by simp [ha]),
    show (a :: (mid ++ [z]) : List Char) = (a :: mid) ++ [z] by simp,
    dropWhileEnd_concat_neg hz]

/-! ## Helper lemmas: splitting -/

lemma splitWhen_cons (p : Char → Bool) (c : Char) (cs : List Char) :
    splitWhen p (c :: cs) =
      if p c then [] :: splitWhen p cs
      else match splitWhen p cs with
        | [] => [[c]]
        | x :: xs => (c :: x) :: xs := rfl

lemma splitWhen_cons_pos {p : Char → Bool} {c : Char} {cs : List Char}
    (h : p c = true) : splitWhen p (c :: cs) = [] :: splitWhen p cs := by
  rw [splitWhen_cons, if_pos h]

lemma splitWhen_cons_neg {p : Char → Bool} {c : Char} {cs x : List Char}
    {xs : List (List Char)}
    (h : p c = false) (hr : splitWhen p cs = x :: xs) :
    splitWhen p (c :: cs) = (c :: x) :: xs := by
  rw [splitWhen_cons, if_neg (by simp [h]), hr]

lemma splitWhen_ne_nil (p : Char → Bool) (l : List Char) : splitWhen p l ≠ [] := by
  cases l with
  | nil => simp [splitWhen]
  | cons c cs =>
    unfold splitWhen
    dsimp only
    split
    · simp
    · split <;> simp

lemma splitWhen_of_all_neg {p : Char → Bool} {l : List Char}
    (h : ∀ c ∈ l, p c = false) : splitWhen p l = [l] := by
  induction l with
  | nil => rfl
  | cons c cs ih =>
    exact splitWhen_cons_neg (h c (List.mem_cons_self c cs))
      (ih (fun d hd => h d (List.mem_cons_of_mem c hd)))

lemma splitWhen_append_sep {p : Char → Bool} {a b : List Char} {s : Char}
    (ha : ∀ c ∈ a, p c = false) (hs : p s = true) :
    splitWhen p (a ++ s :: b) = a :: splitWhen p b := by
  induction a with
  | nil => rw [List.nil_append, splitWhen_cons_pos hs]
  | cons c cs ih =>
    have hc : p c = false := ha c (List.mem_cons_self c cs)
    rw [List.cons_append]
    exact splitWhen_cons_neg hc
      (ih (fun d hd => ha d (List.mem_cons_of_mem c hd)))

lemma splitWhen_mem_facts {p : Char → Bool} {l piece : List Char} {c : Char}
    (hpiece : piece ∈ splitWhen p l) (hc : c ∈ piece) :
    c ∈ l ∧ p c = false := by
  induction l generalizing piece with
  | nil =>
    simp only [splitWhen, List.mem_singleton] at hpiece
    subst hpiece; cases hc
  | cons a as ih =>
    by_cases hpa : p a = true
    · rw [splitWhen_cons_pos hpa] at hpiece
      rcases List.mem_cons.1 hpiece with rfl | hmem
      · cases hc
      · have := ih hmem hc
        exact ⟨List.mem_cons_of_mem a this.1, this.2⟩
    · have hpa' : p a = false := by simpa using hpa
      rcases hr : splitWhen p as with _ | ⟨x, xs⟩
      · exact absurd hr (splitWhen_ne_nil p as)
      · rw [splitWhen_cons_neg hpa' hr] at hpiece
        rcases List.mem_cons.1 hpiece with rfl | hmem
        · rcases List.mem_cons.1 hc with rfl | hcx
          · exact ⟨List.mem_cons_self c as, hpa'⟩
          · have := ih (hr ▸ List.mem_cons_self x xs) hcx
            exact ⟨List.mem_cons_of_mem a this.1, this.2⟩
        · have := ih (hr ▸ List.mem_cons_of_mem x hmem) hc
          exact ⟨List.mem_cons_of_mem a this.1, this.2⟩

lemma splitN2OnEq_append {a b : List Char}
    (ha : ∀ c ∈ a, c ≠ '=') :
    splitN2OnEq (a ++ '=' :: b) = some (a, b) := by
  induction a with
  | nil => simp [splitN2OnEq]
  | cons c cs ih =>
    have hc : (c == '=') = false :=
      beq_eq_false_iff_ne.2 (ha c (List.mem_cons_self c cs))
    rw [List.cons_append]
    unfold splitN2OnEq
    rw [hc]
    simp only [Bool.false_eq_true, if_false]
    rw [ih (fun d hd => ha d (List.mem_cons_of_mem c hd))]

lemma splitN2OnEq_eq_some {l x y : List Char}
    (h : splitN2OnEq l = some (x, y)) :
    l = x ++ '=' :: y ∧ ∀ c ∈ x, c ≠ '=' := by
  induction l generalizing x with
  | nil => simp [splitN2OnEq] at h
  | cons c cs ih =>
    unfold splitN2OnEq at h
    by_cases hc : (c == '=') = true
    · rw [if_pos hc] at h
      have hce : c = '=' := beq_iff_eq.1 hc
      injection h with h'
      injection h' with h1 h2
      subst hce; subst h1; subst h2
      exact ⟨rfl, by simp⟩
    · rw [if_neg hc] at h
      rcases hr : splitN2OnEq cs with _ | ⟨l', r'⟩ <;> rw [hr] at h
      · cases h
      · injection h with h'
        injection h' with h1 h2
        subst h2
        have := ih hr
        rcases x with _ | ⟨x0, x'⟩
        · cases h1
        · injection h1 with hx0 hx'
          subst hx0; subst hx'
          refine ⟨by rw [List.cons_append, this.1], ?_⟩
          intro d hd
          rcases List.mem_cons.1 hd with rfl | hdm
          · exact fun hde => by rw [hde] at hc; simp at hc
          · exact this.2 d hdm

/-! ## Helper lemmas: the error-collecting loop -/

lemma exceptMapList_ok_mem {α β ε : Type} {f : α → Except ε β} {l : List α}
    {bs : List β} {b : β}
    (h : exceptMapList f l = .ok bs) (hb : b ∈ bs) : ∃ a ∈ l, f a = .ok b := by
  induction l generalizing bs with
  | nil =>
    simp only [exceptMapList] at h
    injection h with h'
    subst h'; cases hb
  | cons a as ih =>
    unfold exceptMapList at h
    rcases hfa : f a with e | b0 <;> rw [hfa] at h
    · cases h
    · rcases hrec : exceptMapList f as with e | bs' <;> rw [hrec] at h
      · cases h
      · injection h with h'
        subst h'
        rcases List.mem_cons.1 hb with rfl | hmem
        · exact ⟨a, List.mem_cons_self a as, hfa⟩
        · obtain ⟨a', ha', hfa'⟩ := ih hrec hmem
          exact ⟨a', List.mem_cons_of_mem a ha', hfa'⟩

lemma exceptMapList_error_of_mem {α β ε : Type} {f : α → Except ε β} {l : List α}
    {a : α}
    (ha : a ∈ l) (hf : ∀ b, f a ≠ .ok b) :
    ∃ e, exceptMapList f l = .error e := by
  induction l with
  | nil => cases ha
  | cons x xs ih =>
    unfold exceptMapList
    rcases hfx : f x with e | b0
    · exact ⟨e, rfl⟩
    · rcases List.mem_cons.1 ha with rfl | hmem
      · exact absurd hfx (hf b0)
      · obtain ⟨e, he⟩ := ih hmem
        rw [he]
        exact ⟨e, rfl⟩

/-! ## Helper lemmas: character-class facts -/

lemma isValueChar_props {c : Char} (h : isValueChar c = true) :
    isSpace c = false ∧ c ≠ ';' ∧ c ≠ '"' ∧ c ≠ '\'' ∧ c ≠ 'U' := by
  simp only [isValueChar, isDigitChar, Bool.or_eq_true, beq_iff_eq] at h
  rcases h with (rfl | rfl) | (((((((((rfl | rfl) | rfl) | rfl) | rfl) | rfl) | rfl) | rfl) | rfl) | rfl) <;> decide

lemma isThresholdChar_props {c : Char} (h : isThresholdChar c = true) :
    isSpace c = false ∧ c ≠ ';' ∧ c ≠ '"' := by
  simp only [isThresholdChar, isDigitChar, Bool.or_eq_true, beq_iff_eq] at h
  rcases h with (((((((((((rfl | rfl) | rfl) | rfl) | rfl) | rfl) | rfl) | rfl) | rfl) | rfl) | rfl) | rfl) | rfl <;> decide

lemma isLabelDisallowedChar_false_props {c : Char}
    (h : isLabelDisallowedChar c = false) : c ≠ '=' ∧ c ≠ '\'' := by
  constructor <;> rintro rfl <;> revert h <;> decide

lemma isUoMDisallowedChar_false_props {c : Char}
    (h : isUoMDisallowedChar c = false) : c ≠ ';' ∧ c ≠ '\'' ∧ c ≠ '"' := by
  refine ⟨?_, ?_, ?_⟩ <;> rintro rfl <;> revert h <;> decide

/-! ## Helper lemmas: validator characterizations -/

lemma validateLabel_ok_iff {input : List Char} :
    validatePerfDataLabelField input = .ok () ↔
      (trimSpace input ≠ [] ∧
        ∀ c ∈ trimSpace input, isLabelDisallowedChar c = false) := by
  have hcond :
      ((!(trimSpace input).isEmpty && !(trimSpace input).any isLabelDisallowedChar)
          = true) ↔
        (trimSpace input ≠ [] ∧
          ∀ c ∈ trimSpace input, isLabelDisallowedChar c = false) := by
    rw [Bool.and_eq_true, Bool.not_eq_true', Bool.not_eq_true',
      List.isEmpty_eq_false, List.any_eq_false]
    simp only [Bool.not_eq_true]
  unfold validatePerfDataLabelField
  dsimp only
  split <;> rename_i h
  · simp only [true_iff, ← hcond]
    exact h
  · simp only [reduceCtorEq, false_iff, ← hcond]
    exact fun hc => h hc

lemma validateValue_ok_iff {input : List Char} :
    validatePerfDataValueField input = .ok () ↔
      ((∃ c ∈ trimSpace input, isValueChar c = true) ∨ 'U' ∈ trimSpace input) := by
  unfold validatePerfDataValueField
  dsimp only
  split <;> rename_i h <;> simp_all [List.any_eq_true]

lemma validateUoM_ok_iff {input : List Char} :
    validatePerfDataUoMField input = .ok () ↔
      ∀ c ∈ trimSpace input, isUoMDisallowedChar c = false := by
  unfold validatePerfDataUoMField
  dsimp only
  split <;> rename_i h
  · rw [List.isEmpty_iff] at h
    simp [h]
  · split <;> rename_i h2
    · rw [Bool.not_eq_true', List.any_eq_false] at h2
      simp only [true_iff]
      intro c hc
      have := h2 c hc
      rwa [Bool.not_eq_true] at this
    · have h2' : (trimSpace input).any isUoMDisallowedChar = true := by
        simpa using h2
      rw [List.any_eq_true] at h2'
      obtain ⟨c, hc, hdis⟩ := h2'
      simp only [reduceCtorEq, false_iff, not_forall]
      exact ⟨c, hc, by rw [hdis]; exact fun hcc => by cases hcc⟩

lemma validateWarn_ok_iff {input : List Char} :
    validatePerfDataWarnField input = .ok () ↔
      (trimSpace input = [] ∨
        ∃ c ∈ trimSpace input, isThresholdChar c = true) := by
  unfold validatePerfDataWarnField
  dsimp only
  split <;> rename_i h
  · simp_all [List.isEmpty_iff]
  · split <;> rename_i h2 <;>
      simp_all [List.isEmpty_iff, List.any_eq_true]

lemma validateCrit_ok_iff {input : List Char} :
    validatePerfDataCritField input = .ok () ↔
      (trimSpace input = [] ∨
        ∃ c ∈ trimSpace input, isThresholdChar c = true) := by
  unfold validatePerfDataCritField
  dsimp only
  split <;> rename_i h
  · simp_all [List.isEmpty_iff]
  · split <;> rename_i h2 <;>
      simp_all [List.isEmpty_iff, List.any_eq_true]

lemma validateMin_ok_iff {input : List Char} :
    validatePerfDataMinField input = .ok () ↔
      (trimSpace input = [] ∨
        ∃ c ∈ trimSpace input, isValueChar c = true) := by
  unfold validatePerfDataMinField
  dsimp only
  split <;> rename_i h
  · simp_all [List.isEmpty_iff]
  · split <;> rename_i h2 <;>
      simp_all [List.isEmpty_iff, List.any_eq_true]

lemma validateMax_ok_iff {input : List Char} :
    validatePerfDataMaxField input = .ok () ↔
      (trimSpace input = [] ∨
        ∃ c ∈ trimSpace input, isValueChar c = true) := by
  unfold validatePerfDataMaxField
  dsimp only
  split <;> rename_i h
  · simp_all [List.isEmpty_iff]
  · split <;> rename_i h2 <;>
      simp_all [List.isEmpty_iff, List.any_eq_true]

/-! ## Helper lemmas: the per-field parse helpers -/

lemma parseWarnField_ok {input w : List Char}
    (h : parsePerfDataWarnField input = .ok w) :
    w = trimSpace input ∧
      validatePerfDataWarnField (trimSpace input) = .ok () := by
  unfold parsePerfDataWarnField at h
  dsimp only at h
  rcases hv : validatePerfDataWarnField (trimSpace input) with e | u <;>
    rw [hv] at h
  · cases h
  · injection h with h'
    exact ⟨h'.symm, rfl⟩

lemma parseCritField_ok {input w : List Char}
    (h : parsePerfDataCritField input = .ok w) :
    w = trimSpace input ∧
      validatePerfDataCritField (trimSpace input) = .ok () := by
  unfold parsePerfDataCritField at h
  dsimp only at h
  rcases hv : validatePerfDataCritField (trimSpace input) with e | u <;>
    rw [hv] at h
  · cases h
  · injection h with h'
    exact ⟨h'.symm, rfl⟩

lemma parseMinField_ok {input w : List Char}
    (h : parsePerfDataMinField input = .ok w) :
    w = trimSpace input ∧
      validatePerfDataMinField (trimSpace input) = .ok () := by
  unfold parsePerfDataMinField at h
  dsimp only at h
  rcases hv : validatePerfDataMinField (trimSpace input) with e | u <;>
    rw [hv] at h
  · cases h
  · injection h with h'
    exact ⟨h'.symm, rfl⟩

lemma parseMaxField_ok {input w : List Char}
    (h : parsePerfDataMaxField input = .ok w) :
    w = trimSpace input ∧
      validatePerfDataMaxField (trimSpace input) = .ok () := by
  unfold parsePerfDataMaxField at h
  dsimp only at h
  rcases hv : validatePerfDataMaxField (trimSpace input) with e | u <;>
    rw [hv] at h
  · cases h
  · injection h with h'
    exact ⟨h'.symm, rfl⟩

lemma parseWarnField_eq_ok {W : List Char}
    (hns : ∀ c ∈ W, isSpace c = false)
    (hv : W = [] ∨ ∃ c ∈ W, isThresholdChar c = true) :
    parsePerfDataWarnField W = .ok W := by
  have ht : trimSpace W = W := trimSpace_eq_self_of_all hns
  have hvv : validatePerfDataWarnField W = .ok () :=
    validateWarn_ok_iff.2 (by rw [ht]; exact hv)
  unfold parsePerfDataWarnField
  dsimp only
  rw [ht, hvv]

lemma parseCritField_eq_ok {W : List Char}
    (hns : ∀ c ∈ W, isSpace c = false)
    (hv : W = [] ∨ ∃ c ∈ W, isThresholdChar c = true) :
    parsePerfDataCritField W = .ok W := by
  have ht : trimSpace W = W := trimSpace_eq_self_of_all hns
  have hvv : validatePerfDataCritField W = .ok () :=
    validateCrit_ok_iff.2 (by rw [ht]; exact hv)
  unfold parsePerfDataCritField
  dsimp only
  rw [ht, hvv]

lemma parseMinField_eq_ok {W : List Char}
    (hns : ∀ c ∈ W, isSpace c = false)
    (hv : W = [] ∨ ∃ c ∈ W, isValueChar c = true) :
    parsePerfDataMinField W = .ok W := by
  have ht : trimSpace W = W := trimSpace_eq_self_of_all hns
  have hvv : validatePerfDataMinField W = .ok () :=
    validateMin_ok_iff.2 (by rw [ht]; exact hv)
  unfold parsePerfDataMinField
  dsimp only
  rw [ht, hvv]

lemma parseMaxField_eq_ok {W : List Char}
    (hns : ∀ c ∈ W, isSpace c = false)
    (hv : W = [] ∨ ∃ c ∈ W, isValueChar c = true) :
    parsePerfDataMaxField W = .ok W := by
  have ht : trimSpace W = W := trimSpace_eq_self_of_all hns
  have hvv : validatePerfDataMaxField W = .ok () :=
    validateMax_ok_iff.2 (by rw [ht]; exact hv)
  unfold parsePerfDataMaxField
  dsimp only
  rw [ht, hvv]

/-! ## Helper lemmas: the tokenizer and the Value/UoM splitter -/

lemma wraps_always (e : PerfErr) :
    wrapsErrInvalidPerformanceDataFormat e = true := by
  cases e <;> rfl

lemma extractLabelAndRawValue_ok {input lab rv : List Char}
    (h : extractLabelAndRawValue input = .ok (lab, rv)) :
    ∃ l0 r0, splitN2OnEq input = some (l0, r0) ∧
      lab = trimSpace (trimWhen (fun c => c == '\'') l0) ∧
      validatePerfDataLabelField lab = .ok () ∧
      rv = trimSpace r0 ∧ rv ≠ [] := by
  unfold extractLabelAndRawValue at h
  dsimp only at h
  split at h
  · cases h
  · split at h
    · cases h
    · rename_i l0r0 l0 r0 heq
      split at h <;> rename_i hval
      · cases h
      · split at h <;> rename_i hrve
        · cases h
        · injection h with h'
          injection h' with h1 h2
          subst h1; subst h2
          refine ⟨l0, r0, heq, rfl, ?_, rfl, ?_⟩
          · rw [hval]
          · intro hnil
            rw [hnil] at hrve
            simp at hrve

lemma takeWhile_eq_cons {q : Char → Bool} {X : List Char} {w : Char}
    {ws : List Char} (h : X.takeWhile q = w :: ws) :
    ∃ X', X = w :: X' ∧ q w = true := by
  cases X with
  | nil => cases h
  | cons x X' =>
    rw [List.takeWhile_cons] at h
    by_cases hq : q x = true
    · rw [if_pos hq] at h
      injection h with h1 h2
      subst h1
      exact ⟨X', rfl, hq⟩
    · rw [if_neg hq] at h
      cases h

lemma dropWhile_eq_cons_head {p : Char → Bool} {l ws : List Char} {w : Char}
    (h : l.dropWhile p = w :: ws) : p w = false := by
  induction l with
  | nil => cases h
  | cons a as ih =>
    rw [List.dropWhile_cons] at h
    split at h <;> rename_i hq
    · exact ih h
    · injection h with h1 h2
      subst h1
      simpa using hq

lemma findValueUoMMatch_none_of_all {input : List Char}
    (h : ∀ c ∈ input, isValueChar c = false) :
    findValueUoMMatch input = none := by
  induction input with
  | nil => rfl
  | cons c cs ih =>
    unfold findValueUoMMatch
    rw [h c (List.mem_cons_self c cs)]
    simp only [Bool.false_eq_true, if_false]
    exact ih (fun d hd => h d (List.mem_cons_of_mem c hd))

lemma findValueUoMMatch_append {pre rest : List Char} {c : Char}
    (hpre : ∀ x ∈ pre, isValueChar x = false) (hc : isValueChar c = true) :
    findValueUoMMatch (pre ++ c :: rest) =
      some (c :: rest.takeWhile isValueChar,
        (rest.dropWhile isValueChar).takeWhile
          (fun d => !isUoMDisallowedChar d)) := by
  induction pre with
  | nil =>
    rw [List.nil_append]
    unfold findValueUoMMatch
    rw [hc]
    simp
  | cons a as ih =>
    rw [List.cons_append]
    unfold findValueUoMMatch
    rw [hpre a (List.mem_cons_self a as)]
    simp only [Bool.false_eq_true, if_false]
    exact ih (fun d hd => hpre d (List.mem_cons_of_mem a hd))

lemma findValueUoMMatch_some {input v u : List Char}
    (h : findValueUoMMatch input = some (v, u)) :
    v ≠ [] ∧ (∀ c ∈ v, isValueChar c = true) ∧
      (∀ c ∈ u, isUoMDisallowedChar c = false) ∧
      (∀ w ws, u = w :: ws → isValueChar w = false) ∧
      (∀ c ∈ v, c ∈ input) ∧ (∀ c ∈ u, c ∈ input) := by
  induction input with
  | nil => cases h
  | cons a as ih =>
    unfold findValueUoMMatch at h
    by_cases ha : isValueChar a = true
    · rw [ha] at h
      simp only [if_true] at h
      injection h with h'
      injection h' with h1 h2
      subst h1; subst h2
      refine ⟨List.cons_ne_nil a _, ?_, ?_, ?_, ?_, ?_⟩
      · intro c hc
        rcases List.mem_cons.1 hc with rfl | hmem
        · exact ha
        · exact List.mem_takeWhile_imp hmem
      · intro c hc
        have := List.mem_takeWhile_imp hc
        simpa using this
      · intro w ws hu
        obtain ⟨X', hX, hqw⟩ := takeWhile_eq_cons hu
        exact dropWhile_eq_cons_head hX
      · intro c hc
        rcases List.mem_cons.1 hc with rfl | hmem
        · exact List.mem_cons_self c as
        · exact List.mem_cons_of_mem a
            ((List.takeWhile_sublist isValueChar).mem hmem)
      · intro c hc
        have h1 : c ∈ as.dropWhile isValueChar :=
          (List.takeWhile_sublist _).mem hc
        exact List.mem_cons_of_mem a ((List.dropWhile_sublist isValueChar).mem h1)
    · have ha' : isValueChar a = false := by simpa using ha
      rw [ha'] at h
      simp only [Bool.false_eq_true, if_false] at h
      obtain ⟨h1, h2, h3, h4, h5, h6⟩ := ih h
      exact ⟨h1, h2, h3, h4,
        fun c hc => List.mem_cons_of_mem a (h5 c hc),
        fun c hc => List.mem_cons_of_mem a (h6 c hc)⟩

lemma extractValueAndUoM_ok {input v u : List Char}
    (h : extractValueAndUoM input = .ok (v, u)) :
    (input = ['U'] ∧ v = ['U'] ∧ u = []) ∨
      findValueUoMMatch input = some (v, u) := by
  unfold extractValueAndUoM at h
  split at h
  · cases h
  · split at h <;> rename_i hU
    · injection h with h'
      injection h' with h1 h2
      subst h1; subst h2
      exact Or.inl ⟨hU, hU, rfl⟩
    · split at h
      · cases h
      · rename_i x v0 u0 hfind
        split at h
        · cases h
        · split at h
          · cases h
          · injection h with h'
            injection h' with h1 h2
            subst h1; subst h2
            exact Or.inr hfind

lemma extractValueAndUoM_eq_ok {pre rest : List Char} {c : Char}
    (hpre : ∀ x ∈ pre, isValueChar x = false) (hc : isValueChar c = true) :
    extractValueAndUoM (pre ++ c :: rest) =
      .ok (c :: rest.takeWhile isValueChar,
        (rest.dropWhile isValueChar).takeWhile
          (fun d => !isUoMDisallowedChar d)) := by
  have hneU : pre ++ c :: rest ≠ ['U'] := by
    intro hU
    rcases pre with _ | ⟨p0, pre'⟩
    · rw [List.nil_append] at hU
      injection hU with hU1 hU2
      subst hU1
      exact absurd hc (by decide)
    · rw [List.cons_append] at hU
      injection hU with hU1 hU2
      exact absurd (List.append_eq_nil.1 hU2).2 (List.cons_ne_nil c rest)
  have hfind := @findValueUoMMatch_append pre rest c hpre hc
  have hvns : ∀ x ∈ c :: rest.takeWhile isValueChar, isSpace x = false := by
    intro x hx
    rcases List.mem_cons.1 hx with rfl | hmem
    · exact (isValueChar_props hc).1
    · exact (isValueChar_props (List.mem_takeWhile_imp hmem)).1
  have hvval : validatePerfDataValueField (c :: rest.takeWhile isValueChar) =
      .ok () := by
    rw [validateValue_ok_iff, trimSpace_eq_self_of_all hvns]
    exact Or.inl ⟨c, List.mem_cons_self _ _, hc⟩
  have huval : validatePerfDataUoMField
      ((rest.dropWhile isValueChar).takeWhile
        (fun d => !isUoMDisallowedChar d)) = .ok () := by
    rw [validateUoM_ok_iff]
    intro d hd
    have := List.mem_takeWhile_imp (mem_of_mem_trimWhen hd)
    simpa using this
  unfold extractValueAndUoM
  rw [if_neg (by simp), if_neg hneU]
  simp only [hfind, hvval, huval]

lemma extractLabel_error_of_empty_value {l r : List Char}
    (hleq : ∀ c ∈ l, c ≠ '=') (hr : trimSpace r = []) :
    ∃ e, extractLabelAndRawValue (l ++ '=' :: r) = .error e ∧
      wrapsErrInvalidPerformanceDataFormat e = true := by
  unfold extractLabelAndRawValue
  rw [if_neg (by simp), splitN2OnEq_append hleq]
  cases hval : validatePerfDataLabelField
      (trimSpace (trimWhen (fun c => c == '\'') l)) with
  | error e =>
    refine ⟨e, ?_, wraps_always e⟩
    simp only [hval]
  | ok u =>
    refine ⟨.missingValueField, ?_, rfl⟩
    simp only [hval, hr]
    simp

/-- Helper: the rendered text of a record, as an explicit character list
(the `fmt.Sprintf` template instantiated). -/
lemma string_shape (pd : PerformanceData) :
    pd.string = ' ' :: '\'' :: (pd.Label ++ '\'' :: '=' ::
      (pd.Value ++ (pd.UnitOfMeasurement ++ ';' ::
        (pd.Warn ++ ';' :: (pd.Crit ++ ';' :: (pd.Min ++ ';' :: pd.Max)))))) := by
  simp [PerformanceData.string, str, applyFormat]

/-! ## Helper lemmas: inversion of the metric assembler -/

lemma getD_mem_or_nil (l : List (List Char)) (i : Nat) :
    l.getD i [] ∈ l ∨ l.getD i [] = [] := by
  by_cases h : i < l.length
  · left
    rw [List.getD_eq_getElem l [] h]
    exact List.getElem_mem h
  · right
    exact List.getD_eq_default l [] (by omega)

lemma parsePerfData_ok {t : List Char} {pd : PerformanceData}
    (h : parsePerfData t = .ok pd) :
    (splitOnSemicolon t).length ≤ 5 ∧
    ∃ rv, extractLabelAndRawValue ((splitOnSemicolon t).headD []) =
        .ok (pd.Label, rv) ∧
      extractValueAndUoM rv = .ok (pd.Value, pd.UnitOfMeasurement) ∧
      parsePerfDataWarnField
        (extractRawWarnCritMinMaxRawFieldVals (splitOnSemicolon t)).1 =
          .ok pd.Warn ∧
      parsePerfDataCritField
        (extractRawWarnCritMinMaxRawFieldVals (splitOnSemicolon t)).2.1 =
          .ok pd.Crit ∧
      parsePerfDataMinField
        (extractRawWarnCritMinMaxRawFieldVals (splitOnSemicolon t)).2.2.1 =
          .ok pd.Min ∧
      parsePerfDataMaxField
        (extractRawWarnCritMinMaxRawFieldVals (splitOnSemicolon t)).2.2.2 =
          .ok pd.Max := by
  unfold parsePerfData perfDataMinSemicolonSeparatedFields
    perfDataMaxSemicolonSeparatedFields at h
  dsimp only at h
  split at h <;> rename_i hlen1
  · cases h
  · split at h <;> rename_i hlen5
    · cases h
    · split at h
      · cases h
      · rename_i x1 lab rv hex
        split at h
        · cases h
        · rename_i x2 value uom hvu
          split at h
          · cases h
          · rename_i warn hw
            split at h
            · cases h
            · rename_i crit hcr
              split at h
              · cases h
              · rename_i mn hmn
                split at h
                · cases h
                · rename_i mx hmx
                  injection h with h'
                  subst h'
                  exact ⟨by omega, rv, hex, hvu, hw, hcr, hmn, hmx⟩

lemma splitOnSemicolon_piece_facts {t piece : List Char} {c : Char}
    (hpiece : piece ∈ splitOnSemicolon t) (hc : c ∈ piece) :
    c ∈ t ∧ c ≠ ';' := by
  have := splitWhen_mem_facts hpiece hc
  exact ⟨this.1, by simpa using this.2⟩

lemma parsePerfData_ok_facts {t : List Char} {pd : PerformanceData}
    (ht : ∀ c ∈ t, isSpace c = false)
    (h : parsePerfData t = .ok pd) : ParsedRecordFacts pd := by
  obtain ⟨hlen, rv, hex, hvu, hw, hcr, hmn, hmx⟩ := parsePerfData_ok h
  rcases hfs : splitOnSemicolon t with _ | ⟨f0, fsrest⟩
  · exact absurd hfs (splitWhen_ne_nil _ t)
  rw [hfs] at hex hw hcr hmn hmx
  have hf0mem : f0 ∈ splitOnSemicolon t := by
    rw [hfs]; exact List.mem_cons_self _ _
  rw [List.headD_cons] at hex
  obtain ⟨l0, r0, hsplit, hlab, hlabval, hrv, hrvne⟩ :=
    extractLabelAndRawValue_ok hex
  obtain ⟨hf0eq, hl0eq⟩ := splitN2OnEq_eq_some hsplit
  -- Character transfer: members of the label are members of the token.
  have hlabmem : ∀ c ∈ pd.Label, c ∈ t ∧ c ≠ ';' := by
    intro c hc
    have h1 : c ∈ trimWhen (fun c => c == '\'') l0 := by
      rw [hlab] at hc
      exact mem_of_mem_trimWhen hc
    have h2 : c ∈ l0 := mem_of_mem_trimWhen h1
    have h3 : c ∈ f0 := by
      rw [hf0eq]
      exact List.mem_append_left _ h2
    exact splitOnSemicolon_piece_facts hf0mem h3
  have hlabts : trimSpace pd.Label = pd.Label := by
    rw [hlab]; exact trimSpace_idem _
  have hlabiff := validateLabel_ok_iff.1 hlabval
  rw [hlabts] at hlabiff
  -- Members of the raw value are members of the token.
  have hrvmem : ∀ c ∈ rv, c ∈ t ∧ c ≠ ';' := by
    intro c hc
    have h1 : c ∈ r0 := by
      rw [hrv] at hc
      exact mem_of_mem_trimWhen hc
    have h3 : c ∈ f0 := by
      rw [hf0eq]
      exact List.mem_append_right _ (List.mem_cons_of_mem _ h1)
    exact splitOnSemicolon_piece_facts hf0mem h3
  -- Warn / Crit / Min / Max raw fields.
  have hrawfield : ∀ i, ∀ c ∈ (splitOnSemicolon t).getD i [], c ∈ t ∧ c ≠ ';' := by
    intro i c hc
    rcases getD_mem_or_nil (splitOnSemicolon t) i with hm | hnil
    · exact splitOnSemicolon_piece_facts hm hc
    · rw [hnil] at hc; cases hc
  have hfieldfacts : ∀ (raw w : List Char),
      (∀ c ∈ raw, c ∈ t ∧ c ≠ ';') → w = trimSpace raw →
      (∀ c ∈ w, isSpace c = false ∧ c ≠ ';') ∧ trimSpace w = w := by
    intro raw w hraw hweq
    have hmem : ∀ c ∈ w, c ∈ raw := by
      intro c hc
      rw [hweq] at hc
      exact mem_of_mem_trimWhen hc
    refine ⟨fun c hc => ⟨ht c (hraw c (hmem c hc)).1, (hraw c (hmem c hc)).2⟩, ?_⟩
    rw [hweq]
    exact trimSpace_idem raw
  -- Assemble Warn.
  obtain ⟨hweq, hwval⟩ := parseWarnField_ok hw
  have hwarnraw : ∀ c ∈ (extractRawWarnCritMinMaxRawFieldVals
      (f0 :: fsrest)).1, c ∈ t ∧ c ≠ ';' := by
    unfold extractRawWarnCritMinMaxRawFieldVals
    dsimp only
    split
    · rw [← hfs]; exact hrawfield 1
    · intro c hc; cases hc
  obtain ⟨hwchars, hwts⟩ := hfieldfacts _ _ hwarnraw hweq
  have hwok : pd.Warn = [] ∨ ∃ c ∈ pd.Warn, isThresholdChar c = true := by
    have := validateWarn_ok_iff.1 hwval
    rwa [← hweq, hwts] at this
  -- Assemble Crit.
  obtain ⟨hceq, hcval⟩ := parseCritField_ok hcr
  have hcritraw : ∀ c ∈ (extractRawWarnCritMinMaxRawFieldVals
      (f0 :: fsrest)).2.1, c ∈ t ∧ c ≠ ';' := by
    unfold extractRawWarnCritMinMaxRawFieldVals
    dsimp only
    split
    · rw [← hfs]; exact hrawfield 2
    · intro c hc; cases hc
  obtain ⟨hcchars, hcts⟩ := hfieldfacts _ _ hcritraw hceq
  have hcok : pd.Crit = [] ∨ ∃ c ∈ pd.Crit, isThresholdChar c = true := by
    have := validateCrit_ok_iff.1 hcval
    rwa [← hceq, hcts] at this
  -- Assemble Min.
  obtain ⟨hmeq, hmval⟩ := parseMinField_ok hmn
  have hminraw : ∀ c ∈ (extractRawWarnCritMinMaxRawFieldVals
      (f0 :: fsrest)).2.2.1, c ∈ t ∧ c ≠ ';' := by
    unfold extractRawWarnCritMinMaxRawFieldVals
    dsimp only
    split
    · rw [← hfs]; exact hrawfield 3
    · intro c hc; cases hc
  obtain ⟨hmchars, hmts⟩ := hfieldfacts _ _ hminraw hmeq
  have hmok : pd.Min = [] ∨ ∃ c ∈ pd.Min, isValueChar c = true := by
    have := validateMin_ok_iff.1 hmval
    rwa [← hmeq, hmts] at this
  -- Assemble Max.
  obtain ⟨hxeq, hxval⟩ := parseMaxField_ok hmx
  have hmaxraw : ∀ c ∈ (extractRawWarnCritMinMaxRawFieldVals
      (f0 :: fsrest)).2.2.2, c ∈ t ∧ c ≠ ';' := by
    unfold extractRawWarnCritMinMaxRawFieldVals
    dsimp only
    split
    · rw [← hfs]; exact hrawfield 4
    · intro c hc; cases hc
  obtain ⟨hxchars, hxts⟩ := hfieldfacts _ _ hmaxraw hxeq
  have hxok : pd.Max = [] ∨ ∃ c ∈ pd.Max, isValueChar c = true := by
    have := validateMax_ok_iff.1 hxval
    rwa [← hxeq, hxts] at this
  -- Value and UoM.
  have hvshape : (pd.Value = ['U'] ∧ pd.UnitOfMeasurement = []) ∨
      (pd.Value ≠ [] ∧ (∀ c ∈ pd.Value, isValueChar c = true) ∧
        ∀ w ws, pd.UnitOfMeasurement = w :: ws → isValueChar w = false) := by
    rcases extractValueAndUoM_ok hvu with ⟨hU, hV, hUoM⟩ | hfind
    · exact Or.inl ⟨hV, hUoM⟩
    · obtain ⟨h1, h2, h3, h4, h5, h6⟩ := findValueUoMMatch_some hfind
      exact Or.inr ⟨h1, h2, h4⟩
  have huomchars : ∀ c ∈ pd.UnitOfMeasurement,
      isUoMDisallowedChar c = false ∧ isSpace c = false := by
    rcases extractValueAndUoM_ok hvu with ⟨hU, hV, hUoM⟩ | hfind
    · rw [hUoM]; intro c hc; cases hc
    · obtain ⟨h1, h2, h3, h4, h5, h6⟩ := findValueUoMMatch_some hfind
      intro c hc
      exact ⟨h3 c hc, ht c (hrvmem c (h6 c hc)).1⟩
  exact {
    label_ne := by
      intro hnil
      rw [hnil] at hlabiff
      exact hlabiff.1 rfl
    label_chars := fun c hc =>
      ⟨ht c (hlabmem c hc).1, (hlabmem c hc).2,
        (isLabelDisallowedChar_false_props (hlabiff.2 c hc)).1,
        (isLabelDisallowedChar_false_props (hlabiff.2 c hc)).2⟩
    value_shape := hvshape
    uom_chars := huomchars
    warn_ok := hwok
    warn_chars := hwchars
    crit_ok := hcok
    crit_chars := hcchars
    min_ok := hmok
    min_chars := hmchars
    max_ok := hxok
    max_chars := hxchars }

lemma token_no_space {raw t : List Char}
    (ht : t ∈ fieldsOf (trimWhen (fun c => c == '"') raw)) :
    ∀ c ∈ t, isSpace c = false := by
  intro c hc
  have h2 : t ∈ splitWhen isSpace (trimWhen (fun c => c == '"') raw) :=
    List.mem_of_mem_filter ht
  exact (splitWhen_mem_facts h2 hc).2

lemma ParsePerfData_ok_facts {raw : List Char} {l : List PerformanceData}
    {pd : PerformanceData}
    (h : ParsePerfData raw = .ok l) (hpd : pd ∈ l) : ParsedRecordFacts pd := by
  unfold ParsePerfData at h
  split at h
  · cases h
  · dsimp only at h
    obtain ⟨t, ht, hparse⟩ := exceptMapList_ok_mem h hpd
    exact parsePerfData_ok_facts (token_no_space ht) hparse

lemma extract_label_no_quote {input lab rv : List Char}
    (h : extractLabelAndRawValue input = .ok (lab, rv)) :
    ∀ c ∈ lab, c ≠ '\'' := by
  intro c hc
  obtain ⟨l0, r0, hsplit, hlab, hval, hrv, hrvne⟩ :=
    extractLabelAndRawValue_ok h
  have hts : trimSpace lab = lab := by rw [hlab]; exact trimSpace_idem _
  have hmem : c ∈ trimSpace lab := by rw [hts]; exact hc
  exact (isLabelDisallowedChar_false_props
    ((validateLabel_ok_iff.1 hval).2 c hmem)).2

lemma ParsePerfData_error_of_token {s t : List Char}
    (ht : t ∈ fieldsOf (trimWhen (fun c => c == '"') s))
    (hf : ∀ b, parsePerfData t ≠ .ok b) :
    ∃ e, ParsePerfData s = .error e ∧
      wrapsErrInvalidPerformanceDataFormat e = true := by
  unfold ParsePerfData
  split
  · exact ⟨.missingInput, rfl, rfl⟩
  · dsimp only
    obtain ⟨e, he⟩ := exceptMapList_error_of_mem ht hf
    exact ⟨e, he, wraps_always e⟩

lemma parsePerfData_not_ok_of_many {t : List Char}
    (h5 : 5 < (splitOnSemicolon t).length) :
    ∀ b, parsePerfData t ≠ .ok b :=
  fun _ hb => absurd (parsePerfData_ok hb).1 (by omega)

lemma parsePerfData_not_ok_of_no_eq {t : List Char}
    (heq : ∀ c ∈ t, c ≠ '=') :
    ∀ b, parsePerfData t ≠ .ok b := by
  intro b hb
  obtain ⟨hlen, rv, hex, _⟩ := parsePerfData_ok hb
  rcases hfs : splitOnSemicolon t with _ | ⟨f0, fsrest⟩
  · exact absurd hfs (splitWhen_ne_nil _ t)
  rw [hfs, List.headD_cons] at hex
  obtain ⟨l0, r0, hsplit, _⟩ := extractLabelAndRawValue_ok hex
  obtain ⟨hf0eq, _⟩ := splitN2OnEq_eq_some hsplit
  have hf0mem : f0 ∈ splitOnSemicolon t := by
    rw [hfs]; exact List.mem_cons_self _ _
  have hmem : '=' ∈ f0 := by
    rw [hf0eq]
    exact List.mem_append_right _ (List.mem_cons_self _ _)
  exact heq '=' (splitOnSemicolon_piece_facts hf0mem hmem).1 rfl

lemma parsePerfData_not_ok_of_quoted_label {t lab0 rv0 : List Char}
    (hsp : splitN2OnEq ((splitOnSemicolon t).headD []) = some (lab0, rv0))
    (hq : '\'' ∈ trimSpace (trimWhen (fun c => c == '\'') lab0)) :
    ∀ b, parsePerfData t ≠ .ok b := by
  intro b hb
  obtain ⟨hlen, rv, hex, _⟩ := parsePerfData_ok hb
  obtain ⟨l0, r0, hsplit, hlab, hval, hrv, hrvne⟩ :=
    extractLabelAndRawValue_ok hex
  rw [hsp] at hsplit
  injection hsplit with h'
  injection h' with h1 h2
  subst h1
  have := extract_label_no_quote hex '\'' (by rw [hlab]; exact hq)
  exact this rfl

/-! ## Helper lemmas: re-parsing a rendered record -/

lemma parsedValue_chars {pd : PerformanceData} (f : ParsedRecordFacts pd) :
    ∀ c ∈ pd.Value, isSpace c = false ∧ (c == ';') = false := by
  rcases f.value_shape with ⟨hU, _⟩ | ⟨hne, hall, _⟩
  · rw [hU]
    intro c hc
    simp only [List.mem_singleton] at hc
    subst hc
    exact ⟨by decide, by decide⟩
  · intro c hc
    have h := isValueChar_props (hall c hc)
    exact ⟨h.1, beq_eq_false_iff_ne.2 h.2.1⟩

lemma tokenA_no_semi {pd : PerformanceData} (f : ParsedRecordFacts pd) :
    ∀ c ∈ ('\'' :: (pd.Label ++ '\'' :: '=' ::
        (pd.Value ++ pd.UnitOfMeasurement)) : List Char),
      (c == ';') = false := by
  intro c hc
  simp only [List.mem_cons, List.mem_append] at hc
  rcases hc with rfl | hc
  · decide
  rcases hc with hc | hc
  · exact beq_eq_false_iff_ne.2 (f.label_chars c hc).2.1
  rcases hc with rfl | hc
  · decide
  rcases hc with rfl | hc
  · decide
  rcases hc with hc | hc
  · exact (parsedValue_chars f c hc).2
  · exact beq_eq_false_iff_ne.2
      (isUoMDisallowedChar_false_props (f.uom_chars c hc).1).1

lemma splitToken_semicolon (L V U W C M X : List Char)
    (hA : ∀ c ∈ ('\'' :: (L ++ '\'' :: '=' :: (V ++ U)) : List Char),
      (c == ';') = false)
    (hW : ∀ c ∈ W, (c == ';') = false)
    (hC : ∀ c ∈ C, (c == ';') = false)
    (hM : ∀ c ∈ M, (c == ';') = false)
    (hX : ∀ c ∈ X, (c == ';') = false) :
    splitOnSemicolon ('\'' :: (L ++ '\'' :: '=' ::
        (V ++ (U ++ ';' :: (W ++ ';' :: (C ++ ';' :: (M ++ ';' :: X))))))) =
      [('\'' :: (L ++ '\'' :: '=' :: (V ++ U)) : List Char), W, C, M, X] := by
  have hshape : ('\'' :: (L ++ '\'' :: '=' ::
      (V ++ (U ++ ';' :: (W ++ ';' :: (C ++ ';' :: (M ++ ';' :: X)))))) :
        List Char) =
      ('\'' :: (L ++ '\'' :: '=' :: (V ++ U))) ++
        ';' :: (W ++ ';' :: (C ++ ';' :: (M ++ ';' :: X))) := by
    simp [List.append_assoc]
  unfold splitOnSemicolon
  rw [hshape, splitWhen_append_sep hA (by decide),
    splitWhen_append_sep hW (by decide),
    splitWhen_append_sep hC (by decide),
    splitWhen_append_sep hM (by decide),
    splitWhen_of_all_neg hX]

lemma extractLabel_wrapped_eq (L V U : List Char)
    (hLne : L ≠ [])
    (hLc : ∀ c ∈ L, isSpace c = false ∧ c ≠ ';' ∧ c ≠ '=' ∧ c ≠ '\'')
    (hVns : ∀ c ∈ V, isSpace c = false)
    (hUns : ∀ c ∈ U, isSpace c = false)
    (hVne : V ≠ []) :
    extractLabelAndRawValue ('\'' :: (L ++ '\'' :: '=' :: (V ++ U))) =
      .ok (L, V ++ U) := by
  have hsplitN : splitN2OnEq ('\'' :: (L ++ '\'' :: '=' :: (V ++ U))) =
      some ('\'' :: (L ++ ['\'']), V ++ U) := by
    have hshape : ('\'' :: (L ++ '\'' :: '=' :: (V ++ U)) : List Char) =
        ('\'' :: (L ++ ['\''])) ++ '=' :: (V ++ U) := by
      simp [List.append_assoc]
    rw [hshape]
    refine splitN2OnEq_append ?_
    intro c hc
    simp only [List.mem_cons, List.mem_append, List.mem_singleton] at hc
    rcases hc with rfl | hc | rfl | hemp
    · decide
    · exact (hLc c hc).2.2.1
    · decide
    · cases hemp
  have htrimq : trimWhen (fun c => c == '\'') ('\'' :: (L ++ ['\''])) = L := by
    rw [trimWhen_cons_of_pos (by decide)]
    unfold trimWhen
    have hdw : (L ++ ['\'']).dropWhile (fun c => c == '\'') = L ++ ['\''] := by
      rcases L with _ | ⟨l0, L'⟩
      · exact absurd rfl hLne
      · rw [List.cons_append, List.dropWhile_cons,
          if_neg (by simp [(hLc l0 (List.mem_cons_self l0 L')).2.2.2])]
    rw [hdw, dropWhileEnd_concat_pos (by decide),
      dropWhileEnd_eq_self_of_all
        (fun c hc => beq_eq_false_iff_ne.2 (hLc c hc).2.2.2)]
  have hLts : trimSpace L = L :=
    trimSpace_eq_self_of_all (fun c hc => (hLc c hc).1)
  have hlabval : validatePerfDataLabelField L = .ok () := by
    rw [validateLabel_ok_iff, hLts]
    refine ⟨hLne, fun c hc => ?_⟩
    simp [isLabelDisallowedChar, beq_eq_false_iff_ne.2 (hLc c hc).2.2.1,
      beq_eq_false_iff_ne.2 (hLc c hc).2.2.2]
  have hVUts : trimSpace (V ++ U) = V ++ U := by
    refine trimSpace_eq_self_of_all (fun c hc => ?_)
    rcases List.mem_append.1 hc with h | h
    · exact hVns c h
    · exact hUns c h
  have hVUne : (V ++ U) ≠ [] := fun h => hVne (List.append_eq_nil.1 h).1
  unfold extractLabelAndRawValue
  rw [if_neg (by simp), hsplitN]
  simp only [htrimq, hLts, hlabval, hVUts]
  rw [if_neg (by simpa [List.isEmpty_iff] using hVUne)]

lemma extractValueAndUoM_of_shape (V U : List Char)
    (hUdis : ∀ c ∈ U, isUoMDisallowedChar c = false)
    (hshape : (V = ['U'] ∧ U = []) ∨
      (V ≠ [] ∧ (∀ c ∈ V, isValueChar c = true) ∧
        ∀ w ws, U = w :: ws → isValueChar w = false)) :
    extractValueAndUoM (V ++ U) = .ok (V, U) := by
  rcases hshape with ⟨hV, hU⟩ | ⟨hne, hall, hhead⟩
  · subst hV; subst hU
    rfl
  · rcases hV : V with _ | ⟨v0, V'⟩
    · exact absurd hV hne
    subst hV
    rw [List.cons_append]
    have := @extractValueAndUoM_eq_ok [] (V' ++ U) v0
      (fun x hx => absurd hx (List.not_mem_nil x))
      (hall v0 (List.mem_cons_self v0 V'))
    rw [List.nil_append] at this
    have htake : (V' ++ U).takeWhile isValueChar = V' := by
      rw [takeWhile_append_of_all
        (fun c hc => hall c (List.mem_cons_of_mem v0 hc))]
      have h0 : U.takeWhile isValueChar = [] := by
        rcases hUc : U with _ | ⟨w, ws⟩
        · rfl
        · rw [List.takeWhile_cons, if_neg (by simp [hhead w ws hUc])]
      rw [h0, List.append_nil]
    have hdrop : (V' ++ U).dropWhile isValueChar = U := by
      rw [dropWhile_append_of_all
        (fun c hc => hall c (List.mem_cons_of_mem v0 hc))]
      rcases hUc : U with _ | ⟨w, ws⟩
      · rfl
      · rw [List.dropWhile_cons, if_neg (by simp [hhead w ws hUc])]
    have hUtake : U.takeWhile (fun d => !isUoMDisallowedChar d) = U :=
      List.takeWhile_eq_self_iff.2 (fun c hc => by simp [hUdis c hc])
    rw [this, htake, hdrop, hUtake]

lemma parsePerfData_of_parts {T A W C M X : List Char} {pd : PerformanceData}
    (hsplit : splitOnSemicolon T = [A, W, C, M, X])
    (hexA : extractLabelAndRawValue A =
      .ok (pd.Label, pd.Value ++ pd.UnitOfMeasurement))
    (hexVU : extractValueAndUoM (pd.Value ++ pd.UnitOfMeasurement) =
      .ok (pd.Value, pd.UnitOfMeasurement))
    (hW : parsePerfDataWarnField W = .ok pd.Warn)
    (hC : parsePerfDataCritField C = .ok pd.Crit)
    (hM : parsePerfDataMinField M = .ok pd.Min)
    (hX : parsePerfDataMaxField X = .ok pd.Max) :
    parsePerfData T = .ok pd := by
  have hraw : extractRawWarnCritMinMaxRawFieldVals [A, W, C, M, X] =
    (W, C, M, X) := rfl
  unfold parsePerfData perfDataMinSemicolonSeparatedFields
    perfDataMaxSemicolonSeparatedFields
  dsimp only
  rw [hsplit]
  simp only [List.length_cons, List.length_nil, List.headD_cons, hexA, hexVU,
    hraw, hW, hC, hM, hX]
  norm_num

lemma ParsePerfData_of_token {pd : PerformanceData} {T : List Char}
    (hstr : pd.string = ' ' :: T)
    (hTne : T ≠ [])
    (hTq : ∀ hq : pd.string ≠ [], (pd.string.getLast hq == '"') = false)
    (hTns : ∀ c ∈ T, isSpace c = false)
    (hT : parsePerfData T = .ok pd) :
    ParsePerfData pd.string = .ok [pd] := by
  have htrimne : trimSpace pd.string ≠ [] := by
    rcases hTc : T with _ | ⟨t0, T'⟩
    · exact absurd hTc hTne
    · refine trimWhen_ne_nil_of_mem (x := t0) ?_ ?_
      · rw [hstr, hTc]
        exact List.mem_cons_of_mem _ (List.mem_cons_self _ _)
      · exact hTns t0 (by rw [hTc]; exact List.mem_cons_self _ _)
  have hquote : trimWhen (fun c => c == '"') pd.string = pd.string := by
    unfold trimWhen
    have hdw : pd.string.dropWhile (fun c => c == '"') = pd.string := by
      rw [hstr, List.dropWhile_cons, if_neg (by decide)]
    rw [hdw]
    rw [dropWhileEnd_eq_rdropWhile, List.rdropWhile_eq_self_iff]
    intro hl hp
    have := hTq hl
    rw [hp] at this
    cases this
  have hfields : fieldsOf pd.string = [T] := by
    unfold fieldsOf
    rw [hstr, splitWhen_cons_pos (by decide), splitWhen_of_all_neg hTns]
    rcases hTc : T with _ | ⟨t0, T'⟩
    · exact absurd hTc hTne
    · simp [List.filter]
  unfold ParsePerfData
  rw [if_neg htrimne]
  dsimp only
  rw [hquote, hfields]
  simp only [exceptMapList, hT]

lemma string_getLast_ne_quote (pd : PerformanceData)
    (hmaxval : ∀ c ∈ pd.Max, isValueChar c = true) :
    ∀ hq : pd.string ≠ [], (pd.string.getLast hq == '"') = false := by
  intro hq
  rcases List.eq_nil_or_concat pd.Max with hX | ⟨X', x, hXc⟩
  · have hshape : pd.string =
        (' ' :: '\'' :: (pd.Label ++ '\'' :: '=' ::
          (pd.Value ++ (pd.UnitOfMeasurement ++ ';' ::
            (pd.Warn ++ ';' :: (pd.Crit ++ ';' :: pd.Min)))))) ++ [';'] := by
      rw [string_shape, hX]
      simp [List.append_assoc]
    have hlast : pd.string.getLast hq = ';' := by
      simp only [hshape]
      rw [getLast_append_right (s := [';']) (by simp)]
      rfl
    rw [hlast]
    decide
  · rw [List.concat_eq_append] at hXc
    have hxmem : x ∈ pd.Max := by
      rw [hXc]
      exact List.mem_append_right _ (List.mem_cons_self _ _)
    have hxval := hmaxval x hxmem
    have hshape : pd.string =
        (' ' :: '\'' :: (pd.Label ++ '\'' :: '=' ::
          (pd.Value ++ (pd.UnitOfMeasurement ++ ';' ::
            (pd.Warn ++ ';' ::
              (pd.Crit ++ ';' :: (pd.Min ++ ';' :: X'))))))) ++ [x] := by
      rw [string_shape, hXc]
      simp [List.append_assoc]
    have hlast : pd.string.getLast hq = x := by
      simp only [hshape]
      rw [getLast_append_right (s := [x]) (by simp)]
      rfl
    rw [hlast]
    exact beq_eq_false_iff_ne.2 (isValueChar_props hxval).2.2.1

lemma reparse_of_facts {pd : PerformanceData} (f : ParsedRecordFacts pd)
    (hmaxval : ∀ c ∈ pd.Max, isValueChar c = true) :
    ParsePerfData pd.string = .ok [pd] := by
  have hVne : pd.Value ≠ [] := by
    rcases f.value_shape with ⟨hU, _⟩ | ⟨hne, _, _⟩
    · rw [hU]; exact List.cons_ne_nil _ _
    · exact hne
  have hsplitT := splitToken_semicolon pd.Label pd.Value pd.UnitOfMeasurement
    pd.Warn pd.Crit pd.Min pd.Max (tokenA_no_semi f)
    (fun c hc => beq_eq_false_iff_ne.2 (f.warn_chars c hc).2)
    (fun c hc => beq_eq_false_iff_ne.2 (f.crit_chars c hc).2)
    (fun c hc => beq_eq_false_iff_ne.2 (f.min_chars c hc).2)
    (fun c hc => beq_eq_false_iff_ne.2 (f.max_chars c hc).2)
  have hexA := extractLabel_wrapped_eq pd.Label pd.Value pd.UnitOfMeasurement
    f.label_ne f.label_chars
    (fun c hc => (parsedValue_chars f c hc).1)
    (fun c hc => (f.uom_chars c hc).2) hVne
  have hexVU := extractValueAndUoM_of_shape pd.Value pd.UnitOfMeasurement
    (fun c hc => (f.uom_chars c hc).1) f.value_shape
  have hT : parsePerfData ('\'' :: (pd.Label ++ '\'' :: '=' ::
      (pd.Value ++ (pd.UnitOfMeasurement ++ ';' ::
        (pd.Warn ++ ';' :: (pd.Crit ++ ';' ::
          (pd.Min ++ ';' :: pd.Max))))))) = .ok pd :=
    parsePerfData_of_parts hsplitT hexA hexVU
      (parseWarnField_eq_ok (fun c hc => (f.warn_chars c hc).1) f.warn_ok)
      (parseCritField_eq_ok (fun c hc => (f.crit_chars c hc).1) f.crit_ok)
      (parseMinField_eq_ok (fun c hc => (f.min_chars c hc).1) f.min_ok)
      (parseMaxField_eq_ok (fun c hc => (f.max_chars c hc).1) f.max_ok)
  have hTns : ∀ c ∈ ('\'' :: (pd.Label ++ '\'' :: '=' ::
      (pd.Value ++ (pd.UnitOfMeasurement ++ ';' ::
        (pd.Warn ++ ';' :: (pd.Crit ++ ';' ::
          (pd.Min ++ ';' :: pd.Max)))))) : List Char),
      isSpace c = false := by
    intro c hc
    simp only [List.mem_cons, List.mem_append] at hc
    rcases hc with rfl | hc
    · decide
    rcases hc with hc | hc
    · exact (f.label_chars c hc).1
    rcases hc with rfl | hc
    · decide
    rcases hc with rfl | hc
    · decide
    rcases hc with hc | hc
    · exact (parsedValue_chars f c hc).1
    rcases hc with hc | hc
    · exact (f.uom_chars c hc).2
    rcases hc with rfl | hc
    · decide
    rcases hc with hc | hc
    · exact (f.warn_chars c hc).1
    rcases hc with rfl | hc
    · decide
    rcases hc with hc | hc
    · exact (f.crit_chars c hc).1
    rcases hc with rfl | hc
    · decide
    rcases hc with hc | hc
    · exact (f.min_chars c hc).1
    rcases hc with rfl | hc
    · decide
    · exact (f.max_chars c hc).1
  exact ParsePerfData_of_token (string_shape pd) (List.cons_ne_nil _ _)
    (string_getLast_ne_quote pd hmaxval) hTns hT

/-! ## Theorems for the concrete test-vector claims -/

/-- C7: parsing `"load1=0.26;5;10;0;"` and `"load1=0.26;5;10;0"` (with and
without the trailing semicolon) produce identical single-record results,
equal in every field, with `Max` the empty string in both cases. -/
theorem trailing_field_omission_equivalence :
    ParsePerfData (str "load1=0.26;5;10;0;") =
      .ok [{ Label := str "load1", Value := str "0.26", UnitOfMeasurement := [],
             Warn := str "5", Crit := str "10", Min := str "0", Max := [] }] ∧
    ParsePerfData (str "load1=0.26;5;10;0") =
      .ok [{ Label := str "load1", Value := str "0.26", UnitOfMeasurement := [],
             Warn := str "5", Crit := str "10", Min := str "0", Max := [] }] :=
  ⟨rfl, rfl⟩

/-- C8: parsing `"users=U"` succeeds with `Value = "U"` and an empty
`UnitOfMeasurement`; moreover the Value/UoM capture pattern itself does not
match the string `"U"` at all (`'U'` is outside the class `[-0-9.]`), so the
success is due exclusively to the short-circuit on the exact input `U`,
before any pattern matching. -/
theorem unknown_value_sentinel :
    ParsePerfData (str "users=U") =
      .ok [{ Label := str "users", Value := str "U", UnitOfMeasurement := [],
             Warn := [], Crit := [], Min := [], Max := [] }] ∧
    findValueUoMMatch (str "U") = none :=
  ⟨rfl, rfl⟩

/-- C2 (`code_bug` evidence): on the batch string
`"'response time'=120ms;200;500;;"` the exported parser does not produce the
record claimed by the spec; it fails. `strings.Fields` splits the raw string
at the space inside the quoted label, so the first metric substring is
`"'response"`, which contains no `'='`, and the whole batch is rejected with
the missing-equals-sign error (which wraps
`ErrInvalidPerformanceDataFormat`). -/
theorem quoted_label_with_spaces_fails :
    ParsePerfData (str "'response time'=120ms;200;500;;") =
      .error .missingEqualsSign ∧
    fieldsOf (str "'response time'=120ms;200;500;;") =
      [str "'response", str "time'=120ms;200;500;;"] :=
  ⟨rfl, rfl⟩

/-- C5 (counterexample): the claim says exactly one layer of surrounding
single quotes is stripped from the label half, so a doubly-quoted label
would retain one quote layer. In fact `strings.Trim` strips all surrounding
single quotes: the label half `''two''` of the metric field `''two''=1`
yields label `two` (which succeeds validation), not the claimed `'two'`. -/
theorem label_quote_stripping_counterexample :
    extractLabelAndRawValue (str "''two''=1") = .ok (str "two", str "1") ∧
    str "two" ≠ str "'two'" :=
  ⟨rfl, by decide⟩

/-- C6 (counterexample): the claim says the Value capture is a required
leading run of `[-0-9.]`, so an input whose first character is outside the
class cannot yield a Value taken from the middle of the string. In fact
`FindStringSubmatch` performs an unanchored leftmost search: on the
value-half input `x12ms` — whose first character `x` is outside `[-0-9.]` —
the splitter succeeds and captures Value `12` from the middle of the
string (with UoM `ms`), instead of failing. -/
theorem value_capture_not_anchored_counterexample :
    extractValueAndUoM (str "x12ms") = .ok (str "12", str "ms") ∧
    isValueChar 'x' = false :=
  ⟨rfl, rfl⟩

/-- C9: for every `PerformanceData` record, whether validated or not,
`String()` returns exactly `" '<Label>'=<Value><UoM>;<Warn>;<Crit>;<Min>;<Max>"`:
one leading space, the label always wrapped in single quotes, Value and UoM
concatenated with no separator, and all four semicolons always present even
when the corresponding fields are empty. The function is total (it never
fails) and, being defined for arbitrary records, performs no validation. -/
theorem serializer_output_form (pd : PerformanceData) :
    pd.string = ' ' :: '\'' :: (pd.Label ++ '\'' :: '=' ::
      (pd.Value ++ (pd.UnitOfMeasurement ++ ';' ::
        (pd.Warn ++ ';' :: (pd.Crit ++ ';' :: (pd.Min ++ ';' :: pd.Max)))))) := by
  simp [PerformanceData.string, str, applyFormat]

/-- C4: the Warn field validator (and identically the Crit validator)
accepts the empty string, and accepts a non-empty trimmed string exactly when
it contains at least one character of the class `[0-9~@:]` anywhere in it —
characters outside the class elsewhere in the string are irrelevant — and
rejects exactly the strings containing no such character. -/
theorem warn_crit_validator_rule (input : List Char) :
    (validatePerfDataWarnField input = .ok () ↔
      (trimSpace input = [] ∨
        ∃ c ∈ trimSpace input, isThresholdChar c = true)) ∧
    (validatePerfDataCritField input = .ok () ↔
      (trimSpace input = [] ∨
        ∃ c ∈ trimSpace input, isThresholdChar c = true)) :=
  ⟨validateWarn_ok_iff, validateCrit_ok_iff⟩

/-- C5 (amended): during metric tokenization, ALL layers of surrounding
single-quote characters (plus surrounding whitespace) are stripped from the
label half of field 0 — `strings.Trim` removes every leading and trailing
quote, so no successfully extracted label ever contains a single quote — and
the metric is rejected, with an error wrapping
`ErrInvalidPerformanceDataFormat`, when the value half after whitespace
trimming is empty. -/
theorem label_quote_stripping_amended :
    (∀ input lab rv, extractLabelAndRawValue input = .ok (lab, rv) →
      ∀ c ∈ lab, c ≠ '\'') ∧
    (∀ l r, (∀ c ∈ l, c ≠ '=') → trimSpace r = [] →
      ∃ e, extractLabelAndRawValue (l ++ '=' :: r) = .error e ∧
        wrapsErrInvalidPerformanceDataFormat e = true) := by
  constructor
  · intro input lab rv h c hc
    obtain ⟨l0, r0, hsplit, hlab, hval, hrv, hrvne⟩ :=
      extractLabelAndRawValue_ok h
    have hts : trimSpace lab = lab := by rw [hlab]; exact trimSpace_idem _
    have hmem : c ∈ trimSpace lab := by rw [hts]; exact hc
    exact (isLabelDisallowedChar_false_props
      ((validateLabel_ok_iff.1 hval).2 c hmem)).2
  · intro l r hleq hr
    exact extractLabel_error_of_empty_value hleq hr

/-- C6 (amended): for a non-empty value-half input other than the literal
`U`, the splitter fails (with the no-match error, wrapping
`ErrInvalidPerformanceDataFormat`) exactly when the input contains no
character of the class `[-0-9.]`; when some such character occurs, the Value
capture is the LEFTMOST maximal run of `[-0-9.]` characters — not
necessarily a leading run — and the UoM capture is the maximal following run
of characters outside `0-9;'"`, the rest of the input being discarded. -/
theorem value_capture_leftmost_amended :
    (∀ input : List Char, input ≠ [] → input ≠ ['U'] →
      (∀ c ∈ input, isValueChar c = false) →
      extractValueAndUoM input = .error .valueUoMPatternNoMatch ∧
      wrapsErrInvalidPerformanceDataFormat .valueUoMPatternNoMatch = true) ∧
    (∀ (pre rest : List Char) (c : Char),
      (∀ x ∈ pre, isValueChar x = false) → isValueChar c = true →
      extractValueAndUoM (pre ++ c :: rest) =
        .ok (c :: rest.takeWhile isValueChar,
          (rest.dropWhile isValueChar).takeWhile
            (fun d => !isUoMDisallowedChar d))) := by
  constructor
  · intro input hne hU hall
    refine ⟨?_, rfl⟩
    unfold extractValueAndUoM
    rw [if_neg (by simpa [List.isEmpty_iff] using hne), if_neg hU,
      findValueUoMMatch_none_of_all hall]
  · intro pre rest c hpre hc
    exact extractValueAndUoM_eq_ok hpre hc

/-- C10: every record in the sequence returned by a successful
`ParsePerfData` call has a non-empty Label (its validator requires a
non-empty string) and a non-empty Value (the splitter produces `"U"` or a
non-empty character run), so `Validate()` on any record produced by a
successful parse returns no error. -/
theorem parse_implies_validate {raw : List Char} {l : List PerformanceData}
    {pd : PerformanceData}
    (h : ParsePerfData raw = .ok l) (hpd : pd ∈ l) :
    pd.Label ≠ [] ∧ pd.Value ≠ [] ∧ pd.Validate = .ok () := by
  have f := ParsePerfData_ok_facts h hpd
  have hvne : pd.Value ≠ [] := by
    rcases f.value_shape with ⟨hU, _⟩ | ⟨hne, _, _⟩
    · rw [hU]; exact List.cons_ne_nil _ _
    · exact hne
  refine ⟨f.label_ne, hvne, ?_⟩
  unfold PerformanceData.Validate
  rw [if_neg f.label_ne, if_neg hvne]

/-- C3: the rejection cases, each failing with an error that wraps the root
sentinel `ErrInvalidPerformanceDataFormat` and with no record sequence
returned: a blank (empty or whitespace-only) batch; a batch containing a
metric token with more than 5 semicolon-separated fields; a batch containing
a metric token without `'='`; a batch containing a metric whose label, after
quote/whitespace trimming, still contains a single quote. The fifth case —
a UoM containing a digit — is enforced by the UoM field validator (conjunct
five); at the parse level it can never fire, because the UoM capture group
of the Value/UoM regex stops before any digit, so no digit ever survives
into the captured UoM (conjunct six). -/
theorem rejection_cases :
    (∀ s : List Char, trimSpace s = [] →
      ParsePerfData s = .error .missingInput ∧
      wrapsErrInvalidPerformanceDataFormat .missingInput = true) ∧
    (∀ s t : List Char, t ∈ fieldsOf (trimWhen (fun c => c == '"') s) →
      5 < (splitOnSemicolon t).length →
      ∃ e, ParsePerfData s = .error e ∧
        wrapsErrInvalidPerformanceDataFormat e = true) ∧
    (∀ s t : List Char, t ∈ fieldsOf (trimWhen (fun c => c == '"') s) →
      (∀ c ∈ t, c ≠ '=') →
      ∃ e, ParsePerfData s = .error e ∧
        wrapsErrInvalidPerformanceDataFormat e = true) ∧
    (∀ s t lab0 rv0 : List Char,
      t ∈ fieldsOf (trimWhen (fun c => c == '"') s) →
      splitN2OnEq ((splitOnSemicolon t).headD []) = some (lab0, rv0) →
      '\'' ∈ trimSpace (trimWhen (fun c => c == '\'') lab0) →
      ∃ e, ParsePerfData s = .error e ∧
        wrapsErrInvalidPerformanceDataFormat e = true) ∧
    (∀ u : List Char, (∃ c ∈ trimSpace u, isDigitChar c = true) →
      ∃ e, validatePerfDataUoMField u = .error e ∧
        wrapsErrInvalidPerformanceDataFormat e = true) ∧
    (∀ input v u : List Char, findValueUoMMatch input = some (v, u) →
      ∀ c ∈ u, isDigitChar c = false) := by
  refine ⟨?_, ?_, ?_, ?_, ?_, ?_⟩
  · intro s hs
    refine ⟨?_, rfl⟩
    unfold ParsePerfData
    rw [if_pos hs]
  · intro s t ht h5
    exact ParsePerfData_error_of_token ht (parsePerfData_not_ok_of_many h5)
  · intro s t ht heq
    exact ParsePerfData_error_of_token ht (parsePerfData_not_ok_of_no_eq heq)
  · intro s t lab0 rv0 ht hsp hq
    exact ParsePerfData_error_of_token ht
      (parsePerfData_not_ok_of_quoted_label hsp hq)
  · intro u hu
    obtain ⟨c, hc, hdig⟩ := hu
    have hne : trimSpace u ≠ [] := fun h' => by rw [h'] at hc; cases hc
    have hdis : isUoMDisallowedChar c = true := by
      simp [isUoMDisallowedChar, hdig]
    have hany : (trimSpace u).any isUoMDisallowedChar = true :=
      List.any_eq_true.2 ⟨c, hc, hdis⟩
    refine ⟨.uomInvalid, ?_, rfl⟩
    unfold validatePerfDataUoMField
    dsimp only
    rw [if_neg (by simpa [List.isEmpty_iff] using hne),
      if_neg (by simp [hany])]
  · intro input v u hfind c hc
    have hdis := (findValueUoMMatch_some hfind).2.2.1 c hc
    simp only [isUoMDisallowedChar, Bool.or_eq_false_iff] at hdis
    exact hdis.1.1.1

/-- C1: for every record produced by `ParsePerfData` from a single
well-formed metric string with all five of Value, Warn, Crit, Min, Max
present, rendering with `String()` and re-parsing yields a one-element
sequence whose record equals the original in all seven fields.
Well-formedness of the source string is captured by `specGrammarConformant`:
the record's fields lie in the grammar character classes of the spec's data
model, which is exactly what parsing a grammar-conformant metric string
produces; "all five fields present" is the four non-emptiness hypotheses
(Value is always non-empty). The conclusion gives the re-parsed sequence as
`[pd]` itself, i.e. equality in all seven fields. -/
theorem roundtrip_on_wellformed {raw : List Char} {pd : PerformanceData}
    (hparse : ParsePerfData raw = .ok [pd])
    (hconf : specGrammarConformant pd = true)
    (hwarn : pd.Warn ≠ []) (hcrit : pd.Crit ≠ [])
    (hmin : pd.Min ≠ []) (hmax : pd.Max ≠ []) :
    ParsePerfData pd.string = .ok [pd] := by
  have f := ParsePerfData_ok_facts hparse (List.mem_singleton.2 rfl)
  have hmaxval : ∀ c ∈ pd.Max, isValueChar c = true := by
    simp only [specGrammarConformant, Bool.and_eq_true, List.all_eq_true]
      at hconf
    exact hconf.2
  exact reparse_of_facts f hmaxval

/-! ## Witnesses: the hypothesis-bearing theorems applied at concrete inputs -/

/-- Witness for C1: the record parsed from `"rt=120ms;200;500;0;600"` is
grammar-conformant with all five fields present, and re-parsing its rendered
form returns exactly that record. -/
theorem roundtrip_on_wellformed_witness :
    ParsePerfData (PerformanceData.string
      ⟨str "rt", str "120", str "ms", str "200", str "500",
        str "0", str "600"⟩) =
      .ok [⟨str "rt", str "120", str "ms", str "200", str "500",
        str "0", str "600"⟩] :=
  @roundtrip_on_wellformed (str "rt=120ms;200;500;0;600")
    ⟨str "rt", str "120", str "ms", str "200", str "500", str "0", str "600"⟩
    (by rfl) (by rfl) (by decide) (by decide) (by decide) (by decide)

/-- Witness for C3: each rejection case exercised on a concrete input. -/
theorem rejection_cases_witness :
    (ParsePerfData (str "   ") = .error .missingInput ∧
      wrapsErrInvalidPerformanceDataFormat .missingInput = true) ∧
    (∃ e, ParsePerfData (str "a=1;2;3;4;5;6") = .error e ∧
      wrapsErrInvalidPerformanceDataFormat e = true) ∧
    (∃ e, ParsePerfData (str "abc") = .error e ∧
      wrapsErrInvalidPerformanceDataFormat e = true) ∧
    (∃ e, ParsePerfData (str "a'b=1") = .error e ∧
      wrapsErrInvalidPerformanceDataFormat e = true) ∧
    (∃ e, validatePerfDataUoMField (str "m5") = .error e ∧
      wrapsErrInvalidPerformanceDataFormat e = true) ∧
    (∀ c ∈ str "ms", isDigitChar c = false) :=
  ⟨rejection_cases.1 (str "   ") (by decide),
    rejection_cases.2.1 (str "a=1;2;3;4;5;6") (str "a=1;2;3;4;5;6")
      (by decide) (by decide),
    rejection_cases.2.2.1 (str "abc") (str "abc") (by decide) (by decide),
    rejection_cases.2.2.2.1 (str "a'b=1") (str "a'b=1") (str "a'b") (str "1")
      (by decide) (by decide) (by decide),
    rejection_cases.2.2.2.2.1 (str "m5") (by decide),
    rejection_cases.2.2.2.2.2 (str "x12ms") (str "12") (str "ms") (by decide)⟩

/-- Witness for C5 (amended): the label extracted from `"''two''=1"`
contains no quote, and a metric with an empty value half (`"a= "` read as
`"a" ++ "=" ++ " "`) is rejected. -/
theorem label_quote_stripping_amended_witness :
    (∀ c ∈ str "two", c ≠ '\'') ∧
    (∃ e, extractLabelAndRawValue (str "a" ++ '=' :: str " ") = .error e ∧
      wrapsErrInvalidPerformanceDataFormat e = true) :=
  ⟨fun c hc => label_quote_stripping_amended.1 (str "''two''=1")
      (str "two") (str "1") (by rfl) c hc,
    label_quote_stripping_amended.2 (str "a") (str " ")
      (by decide) (by decide)⟩

/-- Witness for C6 (amended): a value-half with no `[-0-9.]` character is
rejected, and `"x12ms"` (read as `"x" ++ '1' :: "2ms"`) splits into the
leftmost run `"12"` and UoM `"ms"`. -/
theorem value_capture_leftmost_amended_witness :
    (extractValueAndUoM (str "xyz") = .error .valueUoMPatternNoMatch ∧
      wrapsErrInvalidPerformanceDataFormat .valueUoMPatternNoMatch = true) ∧
    extractValueAndUoM (str "x" ++ '1' :: str "2ms") =
      .ok ('1' :: (str "2ms").takeWhile isValueChar,
        ((str "2ms").dropWhile isValueChar).takeWhile
          (fun d => !isUoMDisallowedChar d)) :=
  ⟨value_capture_leftmost_amended.1 (str "xyz")
      (by decide) (by decide) (by decide),
    value_capture_leftmost_amended.2 (str "x") (str "2ms") '1'
      (by decide) (by decide)⟩

/-- Witness for C10: the record parsed from `"a=1"` has non-empty Label and
Value and passes `Validate()`. -/
theorem parse_implies_validate_witness :
    (⟨str "a", str "1", [], [], [], [], []⟩ : PerformanceData).Label ≠ [] ∧
    (⟨str "a", str "1", [], [], [], [], []⟩ : PerformanceData).Value ≠ [] ∧
    (⟨str "a", str "1", [], [], [], [], []⟩ : PerformanceData).Validate =
      .ok () :=
  @parse_implies_validate (str "a=1")
    [⟨str "a", str "1", [], [], [], [], []⟩]
    ⟨str "a", str "1", [], [], [], [], []⟩ (by rfl) (by decide)

end GoNagios
